import Mathlib

/-!
# Nyuzi instruction-set simulator: command line driver and device entry points

A shallow embedding of `tools/simulator/main.c` (the `main` function, its
option loop and `runNonInteractive`) and of the device subsystem declared in
`tools/simulator/device.h`.

* `main` is embedded as a total function from the command line (and the
  answers of its external collaborators) to the list of external calls it
  makes, in order, together with its exit status.
* The five entry points of `device.h` have no body in the sources; they are
  modelled from the design document.
-/

namespace Simulator

/-! ## C library functions used by `main` -/

/-- Index of the first occurrence of `c` in `s` (`strchr(s, c) - s`), or `none`
when `strchr` returns `NULL`. -/
def strchr : List Char → Char → Option Nat
  | [], _ => none
  | x :: xs, c => if x = c then some 0 else (strchr xs c).map (· + 1)

/-- White space in the C locale (`isspace`). -/
def isspace (c : Char) : Bool :=
  c = ' ' || c = '\t' || c = '\n' || c = '\x0b' || c = '\x0c' || c = '\r'

/-- Value of a base 16 digit, `none` for any other character. -/
def hexDigit (c : Char) : Option Nat :=
  if '0' ≤ c ∧ c ≤ '9' then some (c.toNat - '0'.toNat)
  else if 'a' ≤ c ∧ c ≤ 'f' then some (c.toNat - 'a'.toNat + 10)
  else if 'A' ≤ c ∧ c ≤ 'F' then some (c.toNat - 'A'.toNat + 10)
  else none

/-- The digit loop of `strtol`: accumulates base 16 digits until the first
character that is not one. -/
def strtolDigits : List Char → Nat → Nat
  | [], acc => acc
  | c :: cs, acc =>
    match hexDigit c with
    | some d => strtolDigits cs (acc * 16 + d)
    | none => acc

/-- Skips the optional sign of a `strtol` subject sequence. -/
def strtolSign : List Char → Bool × List Char
  | [] => (false, [])
  | c :: cs => if c = '-' then (true, cs) else if c = '+' then (false, cs) else (false, c :: cs)

/-- Skips the optional `0x` / `0X` prefix accepted by `strtol` in base 16. -/
def strtolPrefix : List Char → List Char
  | c0 :: x :: d :: cs =>
    if c0 = '0' ∧ (x = 'x' ∨ x = 'X') ∧ (hexDigit d).isSome then d :: cs
    else c0 :: x :: d :: cs
  | s => s

/-- The call `strtol(s, NULL, 16)` of ISO C: leading white space, an optional
sign, an optional `0x`, then the longest run of base 16 digits; the result
saturates at `LONG_MAX` and `LONG_MIN = -LONG_MAX - 1`. `LONG_MAX` is the
platform's (`2^31 - 1` or `2^63 - 1`). -/
def strtol16 (LONG_MAX : Nat) (s : List Char) : Int :=
  let signed := strtolSign (s.dropWhile isspace)
  let v := strtolDigits (strtolPrefix signed.2) 0
  if signed.1 then
    (if LONG_MAX + 1 < v then -((LONG_MAX : Int) + 1) else -(v : Int))
  else
    (if LONG_MAX < v then (LONG_MAX : Int) else (v : Int))

/-- Conversion of a `long` to `unsigned int` (32 bits). -/
def toUnsignedInt (v : Int) : Nat := (v % 2 ^ 32).toNat

/-- Conversion of a `long` to `int` (32 bits, two's complement). -/
def toInt (v : Int) : Int := (v + 2 ^ 31) % 2 ^ 32 - 2 ^ 31

/-! ## `getopt(argc, argv, "id:vm:")` -/

/-- The option string `"id:vm:"`: `some true` for an option that takes an
argument, `some false` for a flag, `none` for a character that is not an
option. -/
def optstring (c : Char) : Option Bool :=
  if c = 'i' then some false
  else if c = 'd' then some true
  else if c = 'v' then some false
  else if c = 'm' then some true
  else none

/-- One result of `getopt`: the character returned and `optarg`. -/
structure GetoptResult where
  c : Char
  optarg : String
  deriving DecidableEq, Repr

/-- The results `getopt` returns while it walks through the option characters
of one `argv` element (the characters after the leading `-`). `next` is the
following `argv` element, if any; the boolean tells whether `getopt` took it as
the argument of the last option. An unknown character, or an option whose
argument is missing, is reported as `?`. -/
def getoptElement : List Char → Option String → List GetoptResult × Bool
  | [], _ => ([], false)
  | c :: rest, next =>
    match optstring c with
    | none =>
      let r := getoptElement rest next
      (⟨'?', ""⟩ :: r.1, r.2)
    | some false =>
      let r := getoptElement rest next
      (⟨c, ""⟩ :: r.1, r.2)
    | some true =>
      match rest with
      | _ :: _ => ([⟨c, String.mk rest⟩], false)
      | [] =>
        match next with
        | some a => ([⟨c, a⟩], true)
        | none => ([⟨'?', ""⟩], false)

/-- All the results of the successive calls of `getopt` until it returns `-1`,
and the final value of `optind`. POSIX behaviour: the scan stops at the first
element that is not an option (one that does not start with `-`, or is `-`
alone), and `--` is skipped and ends the scan. `skip` says that the head of
the list was already consumed as an option argument. -/
def getoptScan : Bool → List String → Nat → List GetoptResult × Nat
  | _, [], optind => ([], optind)
  | true, _ :: as, optind => getoptScan false as (optind + 1)
  | false, a :: as, optind =>
    match a.data with
    | '-' :: c :: cs =>
      if c = '-' ∧ cs = [] then ([], optind + 1)
      else
        let r := getoptElement (c :: cs) as.head?
        let r2 := getoptScan r.2 as (optind + 1)
        (r.1 ++ r2.1, r2.2)
    | _ => ([], optind)

/-- The whole option scan of a command line: `optind` starts at 1. -/
def getoptAll (argv : List String) : List GetoptResult × Nat :=
  getoptScan false argv.tail 1

/-! ## `main` -/

/-- The execution mode, the anonymous `enum` of `main`. -/
inductive Mode
  | kNormal
  | kCosimulation
  | kGui
  | kDebug
  deriving DecidableEq, Repr

/-- The external calls `main` can make, and the entry points of `device.h`. -/
inductive Event
  | initCore (memsize : Nat)
  | fprintfStderr (message : String)
  | loadHexFile (filename : String)
  | enableTracing
  | runNonInteractive
  | runQuantum (instructions : Nat)
  | writeMemoryToFile (filename : String) (base : Nat) (length : Int)
  | runCosim (verbose : Bool)
  | runUI
  | commandInterfaceReadLoop
  | getTotalInstructionCount
  | printfTotal (count : Int)
  | openBlockDevice (filename : String)
  | closeBlockDevice
  | writeDeviceRegister (address value : Nat)
  | readDeviceRegister (address : Nat)
  | enqueueKey (scanCode : Nat)
  deriving DecidableEq, Repr

/-- How a run of `main` ends: with a return value, or in undefined behaviour
(a store past the end of `memDumpFilename`, or a read of `argv` past `argc`). -/
inductive Status
  | returned (code : Int)
  | undefined
  deriving DecidableEq, Repr

/-- A run of `main`: the external calls in order, and how it ended. -/
structure Run where
  trace : List Event
  status : Status
  deriving DecidableEq, Repr

/-- What `main` cannot decide itself: the answers of the functions of `core.h`,
the compile-time switch `ENABLE_COCOA` and the platform's `LONG_MAX`. -/
structure Env where
  /-- return value of `loadHexFile(core, filename)` -/
  loadHexFile : String → Int
  /-- whether the call number `i` (from 0) of `runQuantum(core, 100)` returns non-zero -/
  runQuantum : Nat → Bool
  /-- whether `runCosim(core, verbose)` returns non-zero -/
  runCosim : Bool → Bool
  getTotalInstructionCount : Int
  ENABLE_COCOA : Bool
  LONG_MAX : Nat

/-- The local variables of `main` that the option loop sets. The three
`memDump` variables are indeterminate in C until a `-d` option assigns them;
they are read only when `enableMemoryDump` is set. -/
structure Locals where
  enableMemoryDump : Bool
  memDumpBase : Nat
  memDumpLength : Int
  memDumpFilename : String
  verbose : Bool
  mode : Mode
  deriving DecidableEq, Repr

/-- The initial values: `enableMemoryDump = 0`, `verbose = 0`, `mode = kNormal`. -/
def Locals.init : Locals :=
  { enableMemoryDump := false, memDumpBase := 0, memDumpLength := 0,
    memDumpFilename := "", verbose := false, mode := Mode.kNormal }

/-- The outcome of one pass through the `switch` of the option loop. -/
inductive Step
  | next (l : Locals)
  | exit (message : String)
  | undefined
  deriving DecidableEq, Repr

/-- The body of `case 'm'`. -/
def caseM (l : Locals) (optarg : String) : Step :=
  if optarg = "cosim" then Step.next { l with mode := Mode.kCosimulation }
  else if optarg = "gui" then Step.next { l with mode := Mode.kGui }
  else if optarg = "debug" then Step.next { l with mode := Mode.kDebug }
  else Step.exit ("Unkown execution mode " ++ optarg ++ "\n")

/-- The body of `case 'd'`: `filename,start,length`. The copy of the file name
into the 256 byte array `memDumpFilename` writes its terminator at index
`tok - optarg`, which is out of bounds from 256 on. -/
def caseD (LONG_MAX : Nat) (l : Locals) (optarg : String) : Step :=
  match strchr optarg.data ',' with
  | none => Step.exit "bad format for memory dump\n"
  | some n =>
    if 256 ≤ n then Step.undefined
    else
      let rest := optarg.data.drop (n + 1)
      let l1 := { l with memDumpFilename := String.mk (optarg.data.take n),
                         memDumpBase := toUnsignedInt (strtol16 LONG_MAX rest) }
      match strchr rest ',' with
      | none => Step.exit "bad format for memory dump\n"
      | some k =>
        Step.next { l1 with memDumpLength := toInt (strtol16 LONG_MAX (rest.drop (k + 1))),
                            enableMemoryDump := true }

/-- The `switch (c)` of the option loop. `i` and `?` have no case. -/
def handleOption (LONG_MAX : Nat) (l : Locals) (o : GetoptResult) : Step :=
  if o.c = 'v' then Step.next { l with verbose := true }
  else if o.c = 'm' then caseM l o.optarg
  else if o.c = 'd' then caseD LONG_MAX l o.optarg
  else Step.next l

/-- The `while ((c = getopt(...)) != -1)` loop over the results of `getopt`. -/
def optionLoop (LONG_MAX : Nat) : Locals → List GetoptResult → Step
  | l, [] => Step.next l
  | l, o :: os =>
    match handleOption LONG_MAX l o with
    | Step.next l1 => optionLoop LONG_MAX l1 os
    | Step.exit m => Step.exit m
    | Step.undefined => Step.undefined

/-- Number of calls of `runQuantum` made by the loop of `runNonInteractive`
from iteration `i` on, with `fuel` iterations left. -/
def runQuantumCalls (runQuantum : Nat → Bool) : Nat → Nat → Nat
  | 0, _ => 0
  | fuel + 1, i => if runQuantum i then runQuantumCalls runQuantum fuel (i + 1) + 1 else 1

/-- The function `runNonInteractive`: at most 80000 quanta of 100 instructions,
until `runQuantum` returns 0. -/
def runNonInteractive (env : Env) : List Event :=
  Event.runNonInteractive ::
    List.replicate (runQuantumCalls env.runQuantum 80000 0) (Event.runQuantum 100)

/-- The `switch (mode)` of `main` and what follows it. -/
def simulate (env : Env) (l : Locals) : Run :=
  let finish : List Event :=
    [Event.getTotalInstructionCount, Event.printfTotal env.getTotalInstructionCount]
  match l.mode with
  | Mode.kNormal =>
    ⟨(if l.verbose then [Event.enableTracing] else []) ++ runNonInteractive env ++
      (if l.enableMemoryDump then
        [Event.writeMemoryToFile l.memDumpFilename l.memDumpBase l.memDumpLength] else []) ++
      finish, Status.returned 0⟩
  | Mode.kCosimulation =>
    if env.runCosim l.verbose then ⟨Event.runCosim l.verbose :: finish, Status.returned 0⟩
    else ⟨[Event.runCosim l.verbose], Status.returned 1⟩
  | Mode.kGui =>
    ⟨(if env.ENABLE_COCOA then [Event.runUI] else []) ++ finish, Status.returned 0⟩
  | Mode.kDebug =>
    ⟨Event.commandInterfaceReadLoop :: finish, Status.returned 0⟩

/-- The part of `main` after the option loop: the image file name is
`argv[optind]`. -/
def loadAndRun (env : Env) (argv : List String) (optind : Nat) (l : Locals) : Run :=
  if optind = argv.length then
    ⟨[Event.fprintfStderr "need to enter an image filename\n"], Status.returned 1⟩
  else
    match argv.get? optind with
    | none => ⟨[], Status.undefined⟩
    | some filename =>
      if env.loadHexFile filename < 0 then
        ⟨[Event.loadHexFile filename,
          Event.fprintfStderr ("*error reading image " ++ filename ++ "\n")], Status.returned 1⟩
      else
        let r := simulate env l
        ⟨Event.loadHexFile filename :: r.trace, r.status⟩

/-- The function `main`. -/
def main (env : Env) (argv : List String) : Run :=
  let scan := getoptAll argv
  match optionLoop env.LONG_MAX Locals.init scan.1 with
  | Step.undefined => ⟨[Event.initCore 0x500000], Status.undefined⟩
  | Step.exit m => ⟨[Event.initCore 0x500000, Event.fprintfStderr m], Status.returned 1⟩
  | Step.next l =>
    let r := loadAndRun env argv scan.2 l
    ⟨Event.initCore 0x500000 :: r.trace, r.status⟩

/-- An environment in which every image loads, the program halts in its first
quantum and co-simulation succeeds, on an LP64 platform without Cocoa. -/
def sampleEnv : Env :=
  { loadHexFile := fun _ => 0, runQuantum := fun _ => false, runCosim := fun _ => true,
    getTotalInstructionCount := 42, ENABLE_COCOA := false, LONG_MAX := 2 ^ 63 - 1 }

/-- The calls that load the program image. -/
def Event.isLoad : Event → Bool
  | Event.loadHexFile _ => true
  | _ => false

/-- The calls that simulate instructions: the four mode entry points and
`runQuantum`. -/
def Event.isSimulation : Event → Bool
  | Event.runNonInteractive => true
  | Event.runQuantum _ => true
  | Event.runCosim _ => true
  | Event.runUI => true
  | Event.commandInterfaceReadLoop => true
  | _ => false

/-- The calls of `openBlockDevice`. -/
def Event.isOpenBlockDevice : Event → Bool
  | Event.openBlockDevice _ => true
  | _ => false

/-- The mode whose entry point an event is. -/
def Event.entryMode : Event → Option Mode
  | Event.runNonInteractive => some Mode.kNormal
  | Event.runCosim _ => some Mode.kCosimulation
  | Event.runUI => some Mode.kGui
  | Event.commandInterfaceReadLoop => some Mode.kDebug
  | _ => none

/-! ## Main: mode selection -/

/-- The arguments of the `-m` options, in command line order. -/
def mArguments (os : List GetoptResult) : List String :=
  (os.filter (fun o => o.c = 'm')).map (fun o => o.optarg)

/-- Number of commas in an option argument. -/
def commaCount (s : String) : Nat := s.data.count ','

/-- The text before the first comma of a `-d` argument fits `memDumpFilename`
with its terminator. -/
def dumpArgumentFits (s : String) : Bool :=
  match strchr s.data ',' with
  | none => true
  | some n => decide (n < 256)

/-- Every `-d` argument of the scan fits `memDumpFilename`. -/
def dumpArgumentsFit (os : List GetoptResult) : Bool :=
  os.all (fun o => !(o.c = 'd') || dumpArgumentFits o.optarg)

/-- The mode a `-m` argument asks for, in the words of the specification:
`cosim`, `gui` and `debug` are the three modes, anything else is none. -/
def specModeOfArgument (s : String) : Option Mode :=
  if s = "cosim" then some Mode.kCosimulation
  else if s = "gui" then some Mode.kGui
  else if s = "debug" then some Mode.kDebug
  else none

/-- The mode selected by a list of `-m` arguments, in the words of the
specification: normal without any, otherwise what the last one asks for. -/
def specSelectedMode (ms : List String) : Option Mode :=
  match ms.getLast? with
  | none => some Mode.kNormal
  | some s => specModeOfArgument s

/-- The entry points `main` goes through in a given mode. `runUI` is compiled
in only with `ENABLE_COCOA`. -/
def modeEntries (env : Env) (m : Mode) : List Mode :=
  if m = Mode.kGui ∧ env.ENABLE_COCOA = false then [] else [m]

/-- An option the `switch` stops at: a `-m` argument that names no mode or a
`-d` argument with fewer than two commas. -/
def GetoptResult.rejected (o : GetoptResult) : Prop :=
  (o.c = 'm' ∧ specModeOfArgument o.optarg = none) ∨ (o.c = 'd' ∧ commaCount o.optarg < 2)

/-! ## Main: the memory dump option -/

/-- The value of a string of base 16 digits, most significant digit first
(the specification's "value read in base 16"). -/
def specHexValue (ds : List Char) : Nat :=
  ds.foldl (fun acc c => acc * 16 + (hexDigit c).getD 0) 0

/-- A hexadecimal numeral: a non-empty string of base 16 digits. -/
def isHexNumeral (ds : List Char) : Bool :=
  !ds.isEmpty && ds.all (fun c => (hexDigit c).isSome)

/-! ## The device subsystem of `device.h`

The bodies of `openBlockDevice`, `closeBlockDevice`, `writeDeviceRegister`,
`readDeviceRegister` and `enqueueKey` are not in the sources. The definitions
of this section follow the design document: sections 3 (data model), 4
(component design) and 6 (entry points, backing file layout). -/

/-- Modelled from the spec: the sector size of the backing store, missing with
the body of the device functions ("`sectorSize` (fixed constant, 512 bytes)"). -/
def sectorSize : Nat := 512

/-- Modelled from the spec: the register identifiers of the address map of
section 6, missing with the body of the device functions. -/
inductive Register
  | STATUS
  | COMMAND
  | SECTOR
  | DATA
  | KEY_DATA
  | KEY_STATUS
  | CONSOLE_OUT
  deriving DecidableEq, Repr

/-- Modelled from the spec: the values accepted by the COMMAND register
(section 4.2), missing with the body of the device functions. -/
inductive Command
  | READ_SECTOR
  | WRITE_SECTOR
  | ACK_INTERRUPT
  deriving DecidableEq, Repr

/-- Modelled from the spec: the error taxonomy of section 7. -/
inductive DeviceError
  | OpenFailed
  | IOFailure
  | OutOfRange
  | DeviceBusy
  deriving DecidableEq, Repr

/-- Modelled from the spec: what the design document leaves open and fixes "at
construction": the address map (the offsets of section 6 are illustrative), the
numeric command codes, and the capacity `N` of the keyboard queue. -/
structure Config where
  mapping : Nat → Option Register
  command : Nat → Option Command
  capacity : Nat

/-- Modelled from the spec: the host files a backing store can be opened on.
`files` gives the bytes of each existing file, `denied` the paths that can be
neither opened nor created. An open file is read and written without host
failures. -/
structure Host where
  files : String → Option (List Nat)
  denied : String → Bool

/-- Modelled from the spec: the host files after the file at `p` has got the
bytes `content` (created if it did not exist); the other files are untouched. -/
def Host.setFile (host : Host) (p : String) (content : List Nat) : Host :=
  { host with files := fun q => if q = p then some content else host.files q }

/-- Modelled from the spec: the BackingStore of section 3: its `path` and its
`fileHandle`, which designates the host file while the store is open and is
`none` while it is closed. -/
structure BackingStore where
  path : String
  fileHandle : Option String

/-- Modelled from the spec: the BlockDeviceController of section 3: the status
bits, `sectorRegister`, `dataPointer` (a byte offset in the sector buffer) and
`sectorBuffer`. `interruptPending` counts the completed operations that are
not acknowledged yet ("accumulates rather than being overwritten"); the
INTERRUPT_PENDING bit is set while it is not zero. -/
structure BlockDeviceController where
  busy : Bool
  error : Bool
  interruptPending : Nat
  sectorRegister : Nat
  dataPointer : Nat
  sectorBuffer : List Nat

/-- Modelled from the spec: the process-wide state of the device subsystem:
the host files, the backing store, the controller, the `entries` of the
KeyboardQueue (head first) and the bytes the ConsoleDevice has emitted. -/
structure Devices where
  host : Host
  store : BackingStore
  controller : BlockDeviceController
  keyboard : List Nat
  console : List Nat

/-- Modelled from the spec: the controller as created at device open: idle,
sector 0, an all-zero sector buffer. -/
def BlockDeviceController.fresh : BlockDeviceController :=
  { busy := false, error := false, interruptPending := 0, sectorRegister := 0,
    dataPointer := 0, sectorBuffer := List.replicate sectorSize 0 }

/-- Modelled from the spec: the four bytes of a 32 bit word, least significant
first (the byte order is not fixed by the design document). -/
def wordBytes (w : Nat) : List Nat :=
  [w % 256, w / 256 % 256, w / 65536 % 256, w / 16777216 % 256]

/-- Modelled from the spec: the word made of up to four bytes, least significant
first. -/
def bytesWord : List Nat → Nat
  | [] => 0
  | b :: bs => b + 256 * bytesWord bs

/-- Modelled from the spec: `writeSector` on the bytes of a file: "seeks and
writes exactly `sectorSize` bytes, extending the file with zero-fill if `index`
is beyond current length". -/
def writeAt (content : List Nat) (offset : Nat) (bytes : List Nat) : List Nat :=
  (content ++ List.replicate (offset - content.length) 0).take offset ++ bytes ++
    content.drop (offset + bytes.length)

/-- Modelled from the spec: `BackingStore.readSector` (section 4.1): sector
`index` occupies the bytes from `index * 512`; a seek past the end of the file
is `OutOfRange`, a short read is `IOFailure`, as is a read on a closed store. -/
def readSector (host : Host) (store : BackingStore) (index : Nat) :
    Except DeviceError (List Nat) :=
  match store.fileHandle with
  | none => Except.error DeviceError.IOFailure
  | some p =>
    match host.files p with
    | none => Except.error DeviceError.IOFailure
    | some content =>
      if content.length < index * sectorSize then Except.error DeviceError.OutOfRange
      else if content.length < index * sectorSize + sectorSize then
        Except.error DeviceError.IOFailure
      else Except.ok ((content.drop (index * sectorSize)).take sectorSize)

/-- Modelled from the spec: `BackingStore.writeSector` (section 4.1); a write on
a closed store is `IOFailure`. -/
def writeSector (host : Host) (store : BackingStore) (index : Nat) (bytes : List Nat) :
    Except DeviceError Host :=
  match store.fileHandle with
  | none => Except.error DeviceError.IOFailure
  | some p =>
    match host.files p with
    | none => Except.error DeviceError.IOFailure
    | some content =>
      Except.ok (host.setFile p (writeAt content (index * sectorSize) bytes))

/-- Modelled from the spec: `attachBlockDevice(path)`, the entry point
`openBlockDevice`: opens the file for binary read/write, creating it when it
does not exist, and creates the controller; returns 0, or -1 (`OpenFailed`,
nothing changed) when the file can be neither opened nor created. -/
def openBlockDevice (d : Devices) (filename : String) : Devices × Int :=
  if d.host.denied filename then (d, -1)
  else
    ({ d with
        host := d.host.setFile filename ((d.host.files filename).getD [])
        store := { path := filename, fileHandle := some filename }
        controller := BlockDeviceController.fresh }, 0)

/-- Modelled from the spec: `detachBlockDevice()`, the entry point
`closeBlockDevice`: flush and release the handle, a no-op on a closed store.
Sector writes reach the file at once in this model, so the flush changes
nothing. -/
def closeBlockDevice (d : Devices) : Devices :=
  { d with store := { d.store with fileHandle := none } }

/-- Modelled from the spec: the address decoder of section 4.5 on an
`unsigned int` address. -/
def decode (cfg : Config) (address : Nat) : Option Register :=
  cfg.mapping (address % 2 ^ 32)

/-- Modelled from the spec: a write of the COMMAND register (section 4.2). -/
def writeCommand (cfg : Config) (d : Devices) (value : Nat) : Devices :=
  match cfg.command value with
  | none => d
  | some Command.ACK_INTERRUPT =>
    { d with controller :=
        { d.controller with interruptPending := d.controller.interruptPending - 1,
                            error := false } }
  | some Command.READ_SECTOR =>
    if d.controller.busy then { d with controller := { d.controller with error := true } }
    else
      match readSector d.host d.store d.controller.sectorRegister with
      | Except.ok bytes =>
        { d with controller :=
            { d.controller with dataPointer := 0, sectorBuffer := bytes,
                                interruptPending := d.controller.interruptPending + 1 } }
      | Except.error _ =>
        { d with controller := { d.controller with dataPointer := 0, error := true } }
  | some Command.WRITE_SECTOR =>
    if d.controller.busy then { d with controller := { d.controller with error := true } }
    else
      match writeSector d.host d.store d.controller.sectorRegister d.controller.sectorBuffer with
      | Except.ok host1 =>
        { d with host := host1
                 controller :=
                  { d.controller with dataPointer := 0,
                                      interruptPending := d.controller.interruptPending + 1 } }
      | Except.error _ =>
        { d with controller := { d.controller with dataPointer := 0, error := true } }

/-- Modelled from the spec: the entry point `writeDeviceRegister` (`writeRegister`
of sections 4.2, 4.4 and 4.5). Address and value are `unsigned int`. -/
def writeDeviceRegister (cfg : Config) (d : Devices) (address value : Nat) : Devices :=
  let v := value % 2 ^ 32
  match decode cfg address with
  | some Register.COMMAND => writeCommand cfg d v
  | some Register.SECTOR => { d with controller := { d.controller with sectorRegister := v } }
  | some Register.DATA =>
    if d.controller.dataPointer + 4 ≤ sectorSize then
      { d with controller :=
          { d.controller with
              sectorBuffer := d.controller.sectorBuffer.take d.controller.dataPointer ++
                wordBytes v ++ d.controller.sectorBuffer.drop (d.controller.dataPointer + 4),
              dataPointer := d.controller.dataPointer + 4 } }
    else d
  | some Register.CONSOLE_OUT => { d with console := d.console ++ [v % 256] }
  | _ => d

/-- Modelled from the spec: the bit-packed STATUS register: BUSY, ERROR and
INTERRUPT_PENDING in bits 0, 1 and 2. -/
def statusWord (c : BlockDeviceController) : Nat :=
  (if c.busy then 1 else 0) + (if c.error then 2 else 0) +
    (if c.interruptPending = 0 then 0 else 4)

/-- Modelled from the spec: the entry point `readDeviceRegister` (`readRegister`
of sections 4.2, 4.3 and 4.5): the value read and the state after the read. -/
def readDeviceRegister (cfg : Config) (d : Devices) (address : Nat) : Nat × Devices :=
  match decode cfg address with
  | some Register.STATUS => (statusWord d.controller, d)
  | some Register.SECTOR => (d.controller.sectorRegister, d)
  | some Register.DATA =>
    if d.controller.dataPointer + 4 ≤ sectorSize then
      (bytesWord ((d.controller.sectorBuffer.drop d.controller.dataPointer).take 4),
        { d with controller :=
            { d.controller with dataPointer := d.controller.dataPointer + 4 } })
    else (0xFFFFFFFF, d)
  | some Register.KEY_DATA =>
    match d.keyboard with
    | [] => (0xFFFFFFFF, d)
    | k :: ks => (k, { d with keyboard := ks })
  | some Register.KEY_STATUS => (if d.keyboard = [] then 0 else 1, d)
  | _ => (0xFFFFFFFF, d)

/-- Modelled from the spec: `injectKeyScanCode(code)`, the entry point
`enqueueKey` (`inject` of section 4.3): appends at the tail; when that takes the
queue past its capacity, the oldest entry is dropped. -/
def enqueueKey (cfg : Config) (d : Devices) (scanCode : Nat) : Devices :=
  if cfg.capacity < (d.keyboard ++ [scanCode % 2 ^ 32]).length then
    { d with keyboard := (d.keyboard ++ [scanCode % 2 ^ 32]).tail }
  else { d with keyboard := d.keyboard ++ [scanCode % 2 ^ 32] }

/-- Modelled from the spec: `interruptPending()` of section 4.5. -/
def interruptPending (d : Devices) : Bool :=
  decide (d.controller.interruptPending ≠ 0) || decide (d.keyboard ≠ [])

/-! ### Driver sequences over the entry points -/

/-- Successive writes of the words `ws` to the register at `address`. -/
def writeWords (cfg : Config) (address : Nat) (d : Devices) (ws : List Nat) : Devices :=
  ws.foldl (fun d1 w => writeDeviceRegister cfg d1 address w) d

/-- The values of `n` successive reads of the register at `address`, and the
state after them. -/
def readWords (cfg : Config) (address : Nat) : Nat → Devices → List Nat × Devices
  | 0, d => ([], d)
  | n + 1, d =>
    let r := readDeviceRegister cfg d address
    let rs := readWords cfg address n r.2
    (r.1 :: rs.1, rs.2)

/-- The words of a block of bytes, four bytes a word. -/
def packWords : List Nat → List Nat
  | b0 :: b1 :: b2 :: b3 :: rest => bytesWord [b0, b1, b2, b3] :: packWords rest
  | _ => []

/-- The bytes of a list of words. -/
def unpackWords : List Nat → List Nat
  | [] => []
  | w :: ws => wordBytes w ++ unpackWords ws

/-- One access to the device subsystem between two steps of a protocol. -/
inductive Access
  | write (address value : Nat)
  | read (address : Nat)
  | key (scanCode : Nat)
  deriving DecidableEq, Repr

/-- The state after an access. -/
def Access.run (cfg : Config) (d : Devices) : Access → Devices
  | Access.write address value => writeDeviceRegister cfg d address value
  | Access.read address => (readDeviceRegister cfg d address).2
  | Access.key scanCode => enqueueKey cfg d scanCode

/-- The state after a list of accesses. -/
def runAccesses (cfg : Config) (d : Devices) (as : List Access) : Devices :=
  as.foldl (Access.run cfg) d

/-- The access is a WRITE_SECTOR command issued while the sector register
selects sector `i`. -/
def Access.writesSector (cfg : Config) (d : Devices) (i : Nat) : Access → Bool
  | Access.write address value =>
    decide (decode cfg address = some Register.COMMAND) &&
      decide (cfg.command (value % 2 ^ 32) = some Command.WRITE_SECTOR) &&
      decide (d.controller.sectorRegister = i)
  | _ => false

/-- None of the accesses, run in order from `d`, writes sector `i`. -/
def noWriteTo (cfg : Config) (i : Nat) : Devices → List Access → Bool
  | _, [] => true
  | d, a :: as => !a.writesSector cfg d i && noWriteTo cfg i (a.run cfg d) as

/-- The register protocol that writes a sector: SECTOR, then the words to DATA,
then COMMAND = WRITE_SECTOR. -/
def writeSectorProtocol (cfg : Config) (aSector aData aCommand cWrite : Nat) (d : Devices)
    (i : Nat) (ws : List Nat) : Devices :=
  writeDeviceRegister cfg (writeWords cfg aData (writeDeviceRegister cfg d aSector i) ws)
    aCommand cWrite

/-- The register protocol that reads a sector: SECTOR, COMMAND = READ_SECTOR,
then `sectorSize / 4` reads of DATA. -/
def readSectorProtocol (cfg : Config) (aSector aData aCommand cRead : Nat) (d : Devices)
    (i : Nat) : List Nat × Devices :=
  readWords cfg aData (sectorSize / 4)
    (writeDeviceRegister cfg (writeDeviceRegister cfg d aSector i) aCommand cRead)

/-- An address map with the registers at word offsets from `0xFFFF0000`
(CONSOLE_OUT at the documented `0xFFFF0004`), command codes 1, 2, 3 and a
keyboard queue of 16 entries. -/
def sampleConfig : Config :=
  { mapping := fun a =>
      if a = 0xFFFF0004 then some Register.CONSOLE_OUT
      else if a = 0xFFFF0010 then some Register.STATUS
      else if a = 0xFFFF0014 then some Register.COMMAND
      else if a = 0xFFFF0018 then some Register.SECTOR
      else if a = 0xFFFF001C then some Register.DATA
      else if a = 0xFFFF0020 then some Register.KEY_DATA
      else if a = 0xFFFF0024 then some Register.KEY_STATUS
      else none
    command := fun v =>
      if v = 1 then some Command.READ_SECTOR
      else if v = 2 then some Command.WRITE_SECTOR
      else if v = 3 then some Command.ACK_INTERRUPT
      else none
    capacity := 16 }

/-- A subsystem before any attach: no host file, closed store, empty queue. -/
def sampleDevices : Devices :=
  { host := { files := fun _ => none, denied := fun _ => false }
    store := { path := "", fileHandle := none }
    controller := BlockDeviceController.fresh
    keyboard := []
    console := [] }

/-! ## Block device: the round trip -/

/-- The backing store is open on `path`, which can be reopened, the controller
is idle with a full-size sector buffer, and sector `i` of the file holds
`block`. -/
structure Holds (path : String) (i : Nat) (block : List Nat) (d : Devices) : Prop where
  handle : d.store.fileHandle = some path
  allowed : d.host.denied path = false
  idle : d.controller.busy = false
  buffer : d.controller.sectorBuffer.length = sectorSize
  sector : ∃ content, d.host.files path = some content ∧
    i * sectorSize + sectorSize ≤ content.length ∧
    (content.drop (i * sectorSize)).take sectorSize = block

/-! # Theorems -/

/-! ## Main: no block device is opened -/

theorem simulate_trace_no_open (env : Env) (l : Locals) (filename : String) :
    Event.openBlockDevice filename ∉ (simulate env l).trace := by
  unfold simulate runNonInteractive
  cases l.mode
  · simp only [List.mem_append, List.mem_cons, List.mem_replicate, not_or]
    refine ⟨⟨⟨?_, ?_, ?_⟩, ?_⟩, ?_⟩
    · split <;> simp
    · simp
    · simp
    · split <;> simp
    · simp
  · dsimp only
    split <;> simp
  · dsimp only
    cases env.ENABLE_COCOA <;> simp
  · simp

theorem loadAndRun_trace_no_open (env : Env) (argv : List String) (optind : Nat) (l : Locals)
    (filename : String) :
    Event.openBlockDevice filename ∉ (loadAndRun env argv optind l).trace := by
  unfold loadAndRun
  split
  · simp
  · split
    · simp
    · split
      · simp
      · simpa using simulate_trace_no_open env l filename

/-- C1 (as the code has it): on every command line, whether or not it reaches a
simulation mode, `main` makes no call of `openBlockDevice`. -/
theorem main_never_calls_openBlockDevice (env : Env) (argv : List String) (filename : String) :
    Event.openBlockDevice filename ∉ (main env argv).trace := by
  simp only [main]
  split
  · simp
  · simp
  · simpa using loadAndRun_trace_no_open env argv _ _ filename

/-- C1 fails as stated: the command line `simulator program.hex` reaches the
normal mode (`runNonInteractive` is entered and a quantum is run) and `main`
has called `openBlockDevice` zero times, not once. -/
theorem main_reaches_simulation_without_openBlockDevice :
    Event.runNonInteractive ∈ (main sampleEnv ["simulator", "program.hex"]).trace ∧
    ((main sampleEnv ["simulator", "program.hex"]).trace.filter Event.isOpenBlockDevice).length
      ≠ 1 := by
  decide

/-! ## Main: the options `-c` and `-i` of the header comment -/

/-- C3, the code at the failing input: with `-c` and a loadable image, `main`
runs `runNonInteractive` and never calls `runCosim`. -/
theorem main_dash_c_runs_non_interactive :
    (main sampleEnv ["simulator", "-c", "program.hex"]).trace =
      [Event.initCore 0x500000, Event.loadHexFile "program.hex", Event.runNonInteractive,
       Event.runQuantum 100, Event.getTotalInstructionCount, Event.printfTotal 42] := by
  decide

/-- C4, the code at the failing input: with `-i` and a loadable image, `main`
runs `runNonInteractive` and never enters `commandInterfaceReadLoop`. -/
theorem main_dash_i_runs_non_interactive :
    (main sampleEnv ["simulator", "-i", "program.hex"]).trace =
      [Event.initCore 0x500000, Event.loadHexFile "program.hex", Event.runNonInteractive,
       Event.runQuantum 100, Event.getTotalInstructionCount, Event.printfTotal 42] := by
  decide

/-! ## Main: mode selection -/

theorem strchr_eq_none_iff (s : List Char) (c : Char) : strchr s c = none ↔ s.count c = 0 := by
  induction s with
  | nil => simp [strchr]
  | cons x xs ih =>
    by_cases h : x = c
    · subst h
      simp [strchr]
    · have h2 : (x == c) = false := by simpa using h
      simp [strchr, h, List.count_cons, h2, ih]

theorem strchr_some_count (s : List Char) (c : Char) (n : Nat) (h : strchr s c = some n) :
    (s.drop (n + 1)).count c + 1 = s.count c := by
  induction s generalizing n with
  | nil => simp [strchr] at h
  | cons x xs ih =>
    by_cases hx : x = c
    · subst hx
      simp [strchr] at h
      subst h
      simp
    · have h2 : (x == c) = false := by simpa using hx
      simp only [strchr, hx, if_false, Option.map_eq_some'] at h
      obtain ⟨k, hk, rfl⟩ := h
      simp [List.count_cons, h2, ih k hk]

theorem caseM_next (l l1 : Locals) (s : String) (h : caseM l s = Step.next l1) :
    specModeOfArgument s = some l1.mode := by
  unfold caseM at h
  unfold specModeOfArgument
  split_ifs at h ⊢ <;> simp at h <;> subst h <;> rfl

theorem caseM_of_spec_some (l : Locals) (s : String) (m : Mode)
    (h : specModeOfArgument s = some m) : caseM l s = Step.next { l with mode := m } := by
  unfold specModeOfArgument at h
  unfold caseM
  split_ifs at h ⊢ <;> simp at h <;> subst h <;> rfl

theorem caseD_unfold (L : Nat) (l : Locals) (s : String) :
    caseD L l s =
      match strchr s.data ',' with
      | none => Step.exit "bad format for memory dump\n"
      | some n =>
        if 256 ≤ n then Step.undefined
        else
          match strchr (s.data.drop (n + 1)) ',' with
          | none => Step.exit "bad format for memory dump\n"
          | some k =>
            Step.next
              { l with memDumpFilename := String.mk (s.data.take n),
                       memDumpBase := toUnsignedInt (strtol16 L (s.data.drop (n + 1))),
                       memDumpLength :=
                         toInt (strtol16 L ((s.data.drop (n + 1)).drop (k + 1))),
                       enableMemoryDump := true } := by
  rfl

theorem caseD_mode (L : Nat) (l l1 : Locals) (s : String) (h : caseD L l s = Step.next l1) :
    l1.mode = l.mode ∧ 2 ≤ commaCount s := by
  rw [caseD_unfold] at h
  split at h
  · simp at h
  · rename_i n hn
    split at h
    · simp at h
    · split at h
      · simp at h
      · rename_i k hk
        simp only [Step.next.injEq] at h
        subst h
        refine ⟨rfl, ?_⟩
        have h1 := strchr_some_count _ _ _ hn
        have h2 := strchr_some_count _ _ _ hk
        unfold commaCount
        omega

theorem caseD_exit (L : Nat) (l : Locals) (s : String) (hfit : dumpArgumentFits s = true)
    (h : commaCount s < 2) : caseD L l s = Step.exit "bad format for memory dump\n" := by
  rw [caseD_unfold]
  unfold dumpArgumentFits at hfit
  split
  · rfl
  · rename_i n hn
    rw [hn] at hfit
    simp only [decide_eq_true_eq] at hfit
    rw [if_neg (by omega)]
    have h1 := strchr_some_count _ _ _ hn
    have h0 : (s.data.drop (n + 1)).count ',' = 0 := by
      unfold commaCount at h
      omega
    rw [(strchr_eq_none_iff _ _).2 h0]

theorem caseD_next (L : Nat) (l : Locals) (s : String) (hfit : dumpArgumentFits s = true)
    (h : 2 ≤ commaCount s) : ∃ l1, caseD L l s = Step.next l1 := by
  rw [caseD_unfold]
  unfold dumpArgumentFits at hfit
  unfold commaCount at h
  split
  · rename_i hn
    have := (strchr_eq_none_iff _ _).1 hn
    omega
  · rename_i n hn
    rw [hn] at hfit
    simp only [decide_eq_true_eq] at hfit
    rw [if_neg (by omega)]
    have h1 := strchr_some_count _ _ _ hn
    split
    · rename_i hk
      have := (strchr_eq_none_iff _ _).1 hk
      omega
    · exact ⟨_, rfl⟩

theorem caseD_ne_undefined (L : Nat) (l : Locals) (s : String)
    (hfit : dumpArgumentFits s = true) : caseD L l s ≠ Step.undefined := by
  by_cases h : commaCount s < 2
  · rw [caseD_exit L l s hfit h]
    simp
  · obtain ⟨l1, h1⟩ := caseD_next L l s hfit (by omega)
    rw [h1]
    simp

theorem handleOption_m (L : Nat) (l : Locals) (o : GetoptResult) (h : o.c = 'm') :
    handleOption L l o = caseM l o.optarg := by
  unfold handleOption
  rw [h]
  simp

theorem handleOption_d (L : Nat) (l : Locals) (o : GetoptResult) (h : o.c = 'd') :
    handleOption L l o = caseD L l o.optarg := by
  unfold handleOption
  rw [h]
  simp

theorem handleOption_next (L : Nat) (l l1 : Locals) (o : GetoptResult)
    (h : handleOption L l o = Step.next l1) :
    ¬ o.rejected ∧ (o.c = 'm' → specModeOfArgument o.optarg = some l1.mode) ∧
      (o.c ≠ 'm' → l1.mode = l.mode) := by
  by_cases hm : o.c = 'm'
  · rw [handleOption_m L l o hm] at h
    have h1 := caseM_next l l1 _ h
    refine ⟨?_, fun _ => h1, fun hne => absurd hm hne⟩
    rintro (⟨_, h2⟩ | ⟨h2, _⟩)
    · rw [h1] at h2
      simp at h2
    · rw [hm] at h2
      simp at h2
  · by_cases hd : o.c = 'd'
    · rw [handleOption_d L l o hd] at h
      have h1 := caseD_mode L l l1 _ h
      refine ⟨?_, fun h2 => absurd h2 hm, fun _ => h1.1⟩
      rintro (⟨h2, _⟩ | ⟨_, h2⟩)
      · exact hm h2
      · omega
    · unfold handleOption at h
      rw [if_neg hm, if_neg hd] at h
      refine ⟨?_, fun h2 => absurd h2 hm, fun _ => ?_⟩
      · rintro (⟨h2, _⟩ | ⟨h2, _⟩)
        · exact hm h2
        · exact hd h2
      · split at h <;> simp at h <;> subst h <;> rfl

theorem handleOption_ne_undefined (L : Nat) (l : Locals) (o : GetoptResult)
    (hfit : o.c = 'd' → dumpArgumentFits o.optarg = true) :
    handleOption L l o ≠ Step.undefined := by
  by_cases hd : o.c = 'd'
  · rw [handleOption_d L l o hd]
    exact caseD_ne_undefined L l _ (hfit hd)
  · unfold handleOption
    rw [if_neg hd]
    split
    · simp
    · split
      · unfold caseM
        split_ifs <;> simp
      · simp

theorem handleOption_of_not_rejected (L : Nat) (l : Locals) (o : GetoptResult)
    (hfit : o.c = 'd' → dumpArgumentFits o.optarg = true) (h : ¬ o.rejected) :
    ∃ l1, handleOption L l o = Step.next l1 := by
  by_cases hm : o.c = 'm'
  · rw [handleOption_m L l o hm]
    cases hs : specModeOfArgument o.optarg with
    | none => exact absurd (Or.inl ⟨hm, hs⟩) h
    | some m => exact ⟨_, caseM_of_spec_some l _ m hs⟩
  · by_cases hd : o.c = 'd'
    · rw [handleOption_d L l o hd]
      apply caseD_next L l _ (hfit hd)
      by_contra hc
      exact h (Or.inr ⟨hd, by omega⟩)
    · unfold handleOption
      rw [if_neg hm, if_neg hd]
      split
      · exact ⟨_, rfl⟩
      · exact ⟨_, rfl⟩

theorem dumpArgumentsFit_cons (o : GetoptResult) (os : List GetoptResult)
    (h : dumpArgumentsFit (o :: os) = true) :
    (o.c = 'd' → dumpArgumentFits o.optarg = true) ∧ dumpArgumentsFit os = true := by
  unfold dumpArgumentsFit at h ⊢
  simp only [List.all_cons, Bool.and_eq_true, Bool.or_eq_true, Bool.not_eq_true',
    decide_eq_false_iff_not] at h
  refine ⟨fun hd => ?_, h.2⟩
  rcases h.1 with h1 | h1
  · exact absurd hd h1
  · exact h1

theorem optionLoop_ne_undefined (L : Nat) (os : List GetoptResult) (l : Locals)
    (hfit : dumpArgumentsFit os = true) : optionLoop L l os ≠ Step.undefined := by
  induction os generalizing l with
  | nil => simp [optionLoop]
  | cons o os ih =>
    have hf := dumpArgumentsFit_cons o os hfit
    unfold optionLoop
    split
    · exact ih _ hf.2
    · simp
    · rename_i hu
      exact absurd hu (handleOption_ne_undefined L l o hf.1)

theorem optionLoop_next_not_rejected (L : Nat) (os : List GetoptResult) (l l1 : Locals)
    (h : optionLoop L l os = Step.next l1) : ∀ o ∈ os, ¬ o.rejected := by
  induction os generalizing l with
  | nil => simp
  | cons o os ih =>
    unfold optionLoop at h
    split at h
    · rename_i l2 h2
      intro o1 ho1
      rcases List.mem_cons.1 ho1 with rfl | hmem
      · exact (handleOption_next L l l2 _ h2).1
      · exact ih _ h o1 hmem
    · simp at h
    · simp at h

theorem optionLoop_total (L : Nat) (os : List GetoptResult) (l : Locals)
    (hfit : dumpArgumentsFit os = true) (h : ∀ o ∈ os, ¬ o.rejected) :
    ∃ l1, optionLoop L l os = Step.next l1 := by
  induction os generalizing l with
  | nil => exact ⟨l, rfl⟩
  | cons o os ih =>
    have hf := dumpArgumentsFit_cons o os hfit
    obtain ⟨l2, h2⟩ := handleOption_of_not_rejected L l o hf.1 (h o (List.mem_cons_self _ _))
    unfold optionLoop
    rw [h2]
    exact ih l2 hf.2 (fun o1 ho1 => h o1 (List.mem_cons_of_mem _ ho1))

theorem optionLoop_exit (L : Nat) (os : List GetoptResult) (l : Locals)
    (hfit : dumpArgumentsFit os = true) (h : ∃ o ∈ os, o.rejected) :
    ∃ m, optionLoop L l os = Step.exit m := by
  cases hr : optionLoop L l os with
  | next l1 =>
    obtain ⟨o, ho, hrej⟩ := h
    exact absurd hrej (optionLoop_next_not_rejected L os l l1 hr o ho)
  | exit m => exact ⟨m, rfl⟩
  | undefined => exact absurd hr (optionLoop_ne_undefined L os l hfit)

/-- The mode after the option loop is the one the last `-m` asks for, or the
initial one. -/
theorem optionLoop_mode (L : Nat) (os : List GetoptResult) (l l1 : Locals)
    (h : optionLoop L l os = Step.next l1) :
    some l1.mode =
      match (mArguments os).getLast? with
      | none => some l.mode
      | some s => specModeOfArgument s := by
  induction os generalizing l with
  | nil =>
    simp only [optionLoop, Step.next.injEq] at h
    subst h
    rfl
  | cons o os ih =>
    unfold optionLoop at h
    split at h
    · rename_i l2 h2
      have ih2 := ih l2 h
      have hs := handleOption_next L l l2 o h2
      by_cases hm : o.c = 'm'
      · have hmA : mArguments (o :: os) = o.optarg :: mArguments os := by
          simp [mArguments, hm]
        rw [hmA, List.getLast?_cons]
        cases hl : (mArguments os).getLast? with
        | none =>
          rw [hl] at ih2
          simp only [Option.getD_none]
          rw [hs.2.1 hm]
          exact ih2
        | some s =>
          rw [hl] at ih2
          simpa using ih2
      · have hmA : mArguments (o :: os) = mArguments os := by
          simp [mArguments, hm]
        rw [hmA, ← hs.2.2 hm]
        exact ih2
    · simp at h
    · simp at h

theorem simulate_entries (env : Env) (l : Locals) :
    (simulate env l).trace.filterMap Event.entryMode = modeEntries env l.mode := by
  unfold simulate runNonInteractive modeEntries
  cases l.mode
  · cases l.verbose <;> cases l.enableMemoryDump <;>
      simp [List.filterMap_append, List.filterMap_cons, Event.entryMode, List.filterMap_replicate]
  · dsimp only
    split <;> simp [List.filterMap_cons, Event.entryMode]
  · cases env.ENABLE_COCOA <;> simp [List.filterMap_cons, Event.entryMode]
  · simp [List.filterMap_cons, Event.entryMode]

theorem main_entries_of_next (env : Env) (argv : List String) (l : Locals) (filename : String)
    (h : optionLoop env.LONG_MAX Locals.init (getoptAll argv).1 = Step.next l)
    (hfile : argv.get? (getoptAll argv).2 = some filename)
    (hload : 0 ≤ env.loadHexFile filename) :
    (main env argv).trace.filterMap Event.entryMode = modeEntries env l.mode := by
  have hlt : (getoptAll argv).2 < argv.length := by
    by_contra hc
    rw [List.get?_eq_none.2 (by omega)] at hfile
    simp at hfile
  simp only [main, h, loadAndRun, hfile]
  rw [if_neg (by omega), if_neg (by omega)]
  simp [List.filterMap_cons, Event.entryMode, simulate_entries]

theorem main_of_exit (env : Env) (argv : List String) (m : String)
    (h : optionLoop env.LONG_MAX Locals.init (getoptAll argv).1 = Step.exit m) :
    main env argv = ⟨[Event.initCore 0x500000, Event.fprintfStderr m], Status.returned 1⟩ := by
  simp only [main, h]

theorem main_of_rejected (env : Env) (argv : List String)
    (hfit : dumpArgumentsFit (getoptAll argv).1 = true)
    (h : ∃ o ∈ (getoptAll argv).1, o.rejected) :
    (main env argv).status = Status.returned 1 ∧
      ∀ e ∈ (main env argv).trace, e.isLoad = false ∧ e.isSimulation = false := by
  obtain ⟨m, hm⟩ := optionLoop_exit env.LONG_MAX _ Locals.init hfit h
  rw [main_of_exit env argv m hm]
  refine ⟨rfl, ?_⟩
  intro e he
  simp only [List.mem_cons, List.mem_singleton, List.not_mem_nil, or_false] at he
  rcases he with rfl | rfl <;> exact ⟨rfl, rfl⟩

theorem mem_mArguments (os : List GetoptResult) (s : String) :
    s ∈ mArguments os ↔ ∃ o ∈ os, o.c = 'm' ∧ o.optarg = s := by
  simp [mArguments, and_assoc]

/-- C2: the execution mode of `main` is a function of its `-m` arguments only.
Whenever the option loop completes, `mode` is what the specification selects
from the `-m` arguments: normal without any, otherwise the mode named by the
last one. When every `-m` argument names a mode (and no `-d` argument is
malformed) and the image loads, the entry point run is the one of that mode
(`runNonInteractive` without `-m`). When some `-m` argument is none of
`cosim`, `gui`, `debug`, `main` returns 1 and has neither loaded the image nor
simulated. The last two parts assume that no `-d` argument overflows
`memDumpFilename`. -/
theorem main_mode_selection (env : Env) (argv : List String) :
    (∀ l, optionLoop env.LONG_MAX Locals.init (getoptAll argv).1 = Step.next l →
      specSelectedMode (mArguments (getoptAll argv).1) = some l.mode) ∧
    (dumpArgumentsFit (getoptAll argv).1 = true →
      (∀ m, specSelectedMode (mArguments (getoptAll argv).1) = some m →
        (∀ s ∈ mArguments (getoptAll argv).1, specModeOfArgument s ≠ none) →
        (∀ o ∈ (getoptAll argv).1, o.c = 'd' → 2 ≤ commaCount o.optarg) →
        ∀ filename, argv.get? (getoptAll argv).2 = some filename →
          0 ≤ env.loadHexFile filename →
          (main env argv).trace.filterMap Event.entryMode = modeEntries env m) ∧
      ((∃ s ∈ mArguments (getoptAll argv).1, specModeOfArgument s = none) →
        (main env argv).status = Status.returned 1 ∧
        ∀ e ∈ (main env argv).trace, e.isLoad = false ∧ e.isSimulation = false)) := by
  have hA : ∀ l, optionLoop env.LONG_MAX Locals.init (getoptAll argv).1 = Step.next l →
      specSelectedMode (mArguments (getoptAll argv).1) = some l.mode := by
    intro l hl
    have := optionLoop_mode env.LONG_MAX _ Locals.init l hl
    unfold specSelectedMode
    rw [this]
    rfl
  refine ⟨hA, fun hfit => ⟨?_, ?_⟩⟩
  · intro m hm hvalid hd filename hfile hload
    have hnr : ∀ o ∈ (getoptAll argv).1, ¬ o.rejected := by
      rintro o ho (⟨h1, h2⟩ | ⟨h1, h2⟩)
      · exact hvalid o.optarg ((mem_mArguments _ _).2 ⟨o, ho, h1, rfl⟩) h2
      · have := hd o ho h1
        omega
    obtain ⟨l, hl⟩ := optionLoop_total env.LONG_MAX _ Locals.init hfit hnr
    have hml := hA l hl
    rw [hm] at hml
    simp only [Option.some.injEq] at hml
    rw [hml]
    exact main_entries_of_next env argv l filename hl hfile hload
  · rintro ⟨s, hs, hnone⟩
    obtain ⟨o, ho, hc, rfl⟩ := (mem_mArguments _ _).1 hs
    exact main_of_rejected env argv hfit ⟨o, ho, Or.inl ⟨hc, hnone⟩⟩

/-- C2 on concrete command lines: `-m gui -mcosim` runs the co-simulation, and
`-m fast` makes `main` return 1. -/
theorem main_mode_selection_witness :
    (main sampleEnv ["simulator", "-m", "gui", "-mcosim", "program.hex"]).trace.filterMap
        Event.entryMode = modeEntries sampleEnv Mode.kCosimulation ∧
    (main sampleEnv ["simulator", "-m", "fast", "program.hex"]).status = Status.returned 1 :=
  ⟨((main_mode_selection sampleEnv ["simulator", "-m", "gui", "-mcosim", "program.hex"]).2
      (by decide)).1 Mode.kCosimulation (by decide) (by decide) (by decide) "program.hex"
      (by decide) (by decide),
   (((main_mode_selection sampleEnv ["simulator", "-m", "fast", "program.hex"]).2
      (by decide)).2 ⟨"fast", by decide, by decide⟩).1⟩

/-! ## Main: the memory dump option -/

theorem strchr_append (pre post : List Char) (c : Char) (h : c ∉ pre) :
    strchr (pre ++ c :: post) c = some pre.length := by
  induction pre with
  | nil => simp [strchr]
  | cons x xs ih =>
    simp only [List.mem_cons, not_or] at h
    have hx : ¬ x = c := fun e => h.1 e.symm
    simp [strchr, hx, ih h.2]

theorem hexDigit_isSome_ne (c : Char) (h : (hexDigit c).isSome = true) :
    isspace c = false ∧ c ≠ '-' ∧ c ≠ '+' ∧ c ≠ 'x' ∧ c ≠ 'X' ∧ c ≠ ',' := by
  refine ⟨?_, ?_, ?_, ?_, ?_, ?_⟩
  · by_contra hs
    simp only [isspace, Bool.not_eq_false, Bool.or_eq_true, decide_eq_true_eq] at hs
    rcases hs with ((((rfl | rfl) | rfl) | rfl) | rfl) | rfl <;> revert h <;> decide
  all_goals
    rintro rfl
    revert h
    decide

theorem strtolDigits_append (ds rest : List Char) (acc : Nat)
    (hds : ∀ c ∈ ds, (hexDigit c).isSome = true)
    (hrest : rest = [] ∨ ∃ t, rest = ',' :: t) :
    strtolDigits (ds ++ rest) acc =
      ds.foldl (fun acc c => acc * 16 + (hexDigit c).getD 0) acc := by
  induction ds generalizing acc with
  | nil =>
    rcases hrest with rfl | ⟨t, rfl⟩
    · rfl
    · have : hexDigit ',' = none := by decide
      simp [strtolDigits, this]
  | cons d ds ih =>
    have hd := hds d (List.mem_cons_self _ _)
    obtain ⟨v, hv⟩ := Option.isSome_iff_exists.1 hd
    simp only [List.cons_append, strtolDigits, hv, List.foldl_cons, Option.getD_some]
    exact ih _ (fun c hc => hds c (List.mem_cons_of_mem _ hc))

theorem strtol16_numeral (L : Nat) (ds rest : List Char) (hds : isHexNumeral ds = true)
    (hrest : rest = [] ∨ ∃ t, rest = ',' :: t) :
    strtol16 L (ds ++ rest) =
      if L < specHexValue ds then (L : Int) else (specHexValue ds : Int) := by
  simp only [isHexNumeral, Bool.and_eq_true, Bool.not_eq_true', List.isEmpty_eq_false,
    List.all_eq_true] at hds
  obtain ⟨hne, hall⟩ := hds
  obtain ⟨d, ds1, rfl⟩ := List.exists_cons_of_ne_nil hne
  have hd := hexDigit_isSome_ne d (hall d (List.mem_cons_self _ _))
  have h1 : List.dropWhile isspace (d :: ds1 ++ rest) = d :: ds1 ++ rest := by
    simp [List.dropWhile, hd.1]
  have h2 : strtolSign (d :: ds1 ++ rest) = (false, d :: ds1 ++ rest) := by
    simp [strtolSign, hd.2.1, hd.2.2.1]
  have h3 : strtolPrefix (d :: ds1 ++ rest) = d :: ds1 ++ rest := by
    cases ds1 with
    | nil =>
      rcases hrest with rfl | ⟨t, rfl⟩
      · rfl
      · cases t with
        | nil => rfl
        | cons y t => simp [strtolPrefix]
    | cons x ds2 =>
      have hx := hexDigit_isSome_ne x (hall x (by simp))
      cases ds2 with
      | nil =>
        rcases hrest with rfl | ⟨t, rfl⟩
        · rfl
        · simp [strtolPrefix, hx.2.2.2.1, hx.2.2.2.2.1]
      | cons y ds3 => simp [strtolPrefix, hx.2.2.2.1, hx.2.2.2.2.1]
  unfold strtol16
  simp only [h1, h2, h3]
  rw [strtolDigits_append (d :: ds1) rest 0 hall hrest]
  rfl

theorem toUnsignedInt_of_lt (v : Nat) (h : v < 2 ^ 32) : toUnsignedInt (v : Int) = v := by
  unfold toUnsignedInt
  omega

theorem toInt_of_lt (v : Nat) (h : v < 2 ^ 31) : toInt (v : Int) = (v : Int) := by
  unfold toInt
  omega

theorem handleOption_dump (L : Nat) (l : Locals) (fname start len : List Char)
    (hcomma : ',' ∉ fname) (hlen : fname.length < 256)
    (hstart : isHexNumeral start = true) (hlength : isHexNumeral len = true)
    (hs1 : specHexValue start ≤ L) (hs2 : specHexValue start < 2 ^ 32)
    (hl1 : specHexValue len ≤ L) (hl2 : specHexValue len < 2 ^ 31) :
    handleOption L l ⟨'d', String.mk (fname ++ ',' :: (start ++ ',' :: len))⟩ =
      Step.next { l with enableMemoryDump := true, memDumpFilename := String.mk fname,
                         memDumpBase := specHexValue start,
                         memDumpLength := (specHexValue len : Int) } := by
  have hsc : ',' ∉ start := by
    intro hmem
    simp only [isHexNumeral, Bool.and_eq_true, List.all_eq_true] at hstart
    exact (hexDigit_isSome_ne ',' (hstart.2 ',' hmem)).2.2.2.2.2 rfl
  rw [handleOption_d L l _ rfl, caseD_unfold]
  simp only [strchr_append fname _ ',' hcomma]
  rw [if_neg (by omega)]
  have hdrop : List.drop (fname.length + 1) (fname ++ ',' :: (start ++ ',' :: len)) =
      start ++ ',' :: len := by
    rw [show fname ++ ',' :: (start ++ ',' :: len) = (fname ++ [',']) ++ (start ++ ',' :: len) by
      simp]
    exact List.drop_left' (by simp)
  have hdrop2 : List.drop (start.length + 1) (start ++ ',' :: len) = len := by
    rw [show start ++ ',' :: len = (start ++ [',']) ++ len by simp]
    exact List.drop_left' (by simp)
  simp only [hdrop, strchr_append start _ ',' hsc, hdrop2, List.take_left']
  rw [strtol16_numeral L start (',' :: len) hstart (Or.inr ⟨len, rfl⟩), if_neg (by omega)]
  have hlen0 := strtol16_numeral L len [] hlength (Or.inl rfl)
  rw [List.append_nil] at hlen0
  rw [hlen0, if_neg (by omega), toUnsignedInt_of_lt _ hs2, toInt_of_lt _ hl2]

theorem getoptScan_operand (a : String) (as : List String) (n : Nat)
    (h : a.data.head? ≠ some '-') : getoptScan false (a :: as) n = ([], n) := by
  unfold getoptScan
  split
  · rename_i c cs hdata
    rw [hdata] at h
    simp at h
  · rfl

theorem getoptAll_dump (prog arg image : String) (h : image.data.head? ≠ some '-') :
    getoptAll [prog, "-d", arg, image] = ([⟨'d', arg⟩], 3) := by
  have h1 : getoptScan false [image] 3 = ([], 3) := getoptScan_operand image [] 3 h
  have h2 : getoptScan true [arg, image] 2 = ([], 3) := by
    rw [getoptScan]
    exact h1
  have h3 : getoptElement ['d'] (some arg) = ([⟨'d', arg⟩], true) := by
    rfl
  show getoptScan false ["-d", arg, image] 1 = _
  rw [getoptScan]
  simp only [show ("-d" : String).data = ['-', 'd'] from rfl]
  simp [h3, h2]

theorem main_of_next (env : Env) (argv : List String) (l : Locals) (filename : String)
    (h : optionLoop env.LONG_MAX Locals.init (getoptAll argv).1 = Step.next l)
    (hfile : argv.get? (getoptAll argv).2 = some filename)
    (hload : 0 ≤ env.loadHexFile filename) :
    main env argv =
      ⟨Event.initCore 0x500000 :: Event.loadHexFile filename :: (simulate env l).trace,
        (simulate env l).status⟩ := by
  have hlt : (getoptAll argv).2 < argv.length := by
    by_contra hc
    rw [List.get?_eq_none.2 (by omega)] at hfile
    simp at hfile
  simp only [main, h, loadAndRun, hfile]
  rw [if_neg (by omega), if_neg (by omega)]

theorem main_dump_trace (env : Env) (prog image : String) (fname start len : List Char)
    (hcomma : ',' ∉ fname) (hlen : fname.length < 256)
    (hstart : isHexNumeral start = true) (hlength : isHexNumeral len = true)
    (hs1 : specHexValue start ≤ env.LONG_MAX) (hs2 : specHexValue start < 2 ^ 32)
    (hl1 : specHexValue len ≤ env.LONG_MAX) (hl2 : specHexValue len < 2 ^ 31)
    (himage : image.data.head? ≠ some '-') (hload : 0 ≤ env.loadHexFile image) :
    Event.writeMemoryToFile (String.mk fname) (specHexValue start) (specHexValue len) ∈
      (main env [prog, "-d", String.mk (fname ++ ',' :: (start ++ ',' :: len)), image]).trace := by
  have hstep := handleOption_dump env.LONG_MAX Locals.init fname start len hcomma hlen hstart
    hlength hs1 hs2 hl1 hl2
  have hscan := getoptAll_dump prog (String.mk (fname ++ ',' :: (start ++ ',' :: len))) image
    himage
  have hloop : optionLoop env.LONG_MAX Locals.init
      (getoptAll [prog, "-d", String.mk (fname ++ ',' :: (start ++ ',' :: len)), image]).1 =
      Step.next { Locals.init with enableMemoryDump := true, memDumpFilename := String.mk fname,
                                   memDumpBase := specHexValue start,
                                   memDumpLength := (specHexValue len : Int) } := by
    rw [hscan]
    simp only [optionLoop, hstep]
  rw [main_of_next env _ _ image hloop (by rw [hscan]; rfl) hload]
  simp [simulate, Locals.init]

/-- C5 (as the code has it): for every `-d` argument `filename,start,length`
whose file name has no comma and fewer than 256 characters and whose `start`
and `length` are non-empty strings of base 16 digits with values that `strtol`
does not saturate (at most `LONG_MAX`) and that fit the variables they are
stored in (`start` below `2^32` for the `unsigned int`, `length` below `2^31`
for the `int`), the `switch` enables the memory dump with the file name and the
two values, and a normal mode run `simulator -d argument image` passes them to
`writeMemoryToFile`. For every command line with a `-d` argument that has
fewer than two commas, provided no `-d` argument has 256 characters or more
before its first comma, `main` returns 1 and has neither loaded the image nor
simulated. -/
theorem memory_dump_option :
    (∀ (L : Nat) (l : Locals) (fname start len : List Char),
      ',' ∉ fname → fname.length < 256 →
      isHexNumeral start = true → isHexNumeral len = true →
      specHexValue start ≤ L → specHexValue start < 2 ^ 32 →
      specHexValue len ≤ L → specHexValue len < 2 ^ 31 →
      handleOption L l ⟨'d', String.mk (fname ++ ',' :: (start ++ ',' :: len))⟩ =
        Step.next { l with enableMemoryDump := true, memDumpFilename := String.mk fname,
                           memDumpBase := specHexValue start,
                           memDumpLength := (specHexValue len : Int) }) ∧
    (∀ (env : Env) (prog image : String) (fname start len : List Char),
      ',' ∉ fname → fname.length < 256 →
      isHexNumeral start = true → isHexNumeral len = true →
      specHexValue start ≤ env.LONG_MAX → specHexValue start < 2 ^ 32 →
      specHexValue len ≤ env.LONG_MAX → specHexValue len < 2 ^ 31 →
      image.data.head? ≠ some '-' → 0 ≤ env.loadHexFile image →
      Event.writeMemoryToFile (String.mk fname) (specHexValue start) (specHexValue len) ∈
        (main env [prog, "-d", String.mk (fname ++ ',' :: (start ++ ',' :: len)),
          image]).trace) ∧
    (∀ (env : Env) (argv : List String),
      dumpArgumentsFit (getoptAll argv).1 = true →
      (∃ o ∈ (getoptAll argv).1, o.c = 'd' ∧ commaCount o.optarg < 2) →
      (main env argv).status = Status.returned 1 ∧
        ∀ e ∈ (main env argv).trace, e.isLoad = false ∧ e.isSimulation = false) := by
  refine ⟨?_, ?_, ?_⟩
  · intro L l fname start len h1 h2 h3 h4 h5 h6 h7 h8
    exact handleOption_dump L l fname start len h1 h2 h3 h4 h5 h6 h7 h8
  · intro env prog image fname start len h1 h2 h3 h4 h5 h6 h7 h8 h9 h10
    exact main_dump_trace env prog image fname start len h1 h2 h3 h4 h5 h6 h7 h8 h9 h10
  · rintro env argv hfit ⟨o, ho, hd, hc⟩
    exact main_of_rejected env argv hfit ⟨o, ho, Or.inr ⟨hd, hc⟩⟩

/-- C5 on concrete arguments: `-d dump.bin,1000,ff` enables the dump of `0xff`
bytes from `0x1000` to `dump.bin`, and `-d dump.bin,1000` makes `main` return 1. -/
theorem memory_dump_option_witness :
    handleOption sampleEnv.LONG_MAX Locals.init
        ⟨'d', String.mk ("dump.bin".data ++ ',' :: ("1000".data ++ ',' :: "ff".data))⟩ =
      Step.next { Locals.init with enableMemoryDump := true,
                                   memDumpFilename := String.mk "dump.bin".data,
                                   memDumpBase := specHexValue "1000".data,
                                   memDumpLength := (specHexValue "ff".data : Int) } ∧
    Event.writeMemoryToFile (String.mk "dump.bin".data) (specHexValue "1000".data)
        (specHexValue "ff".data) ∈
      (main sampleEnv ["simulator", "-d",
        String.mk ("dump.bin".data ++ ',' :: ("1000".data ++ ',' :: "ff".data)),
        "program.hex"]).trace ∧
    (main sampleEnv ["simulator", "-d", "dump.bin,1000", "program.hex"]).status =
      Status.returned 1 :=
  ⟨memory_dump_option.1 sampleEnv.LONG_MAX Locals.init "dump.bin".data "1000".data "ff".data
      (by decide) (by decide) (by decide) (by decide) (by decide) (by decide) (by decide)
      (by decide),
   memory_dump_option.2.1 sampleEnv "simulator" "program.hex" "dump.bin".data "1000".data
      "ff".data (by decide) (by decide) (by decide) (by decide) (by decide) (by decide)
      (by decide) (by decide) (by decide) (by decide),
   (memory_dump_option.2.2 sampleEnv ["simulator", "-d", "dump.bin,1000", "program.hex"]
      (by decide) ⟨⟨'d', "dump.bin,1000"⟩, by decide, by decide, by decide⟩).1⟩

set_option maxRecDepth 100000 in
/-- C5 fails as stated. The numerals `100000000` and `80000000` have the values
`2^32` and `2^31`, but `-d dump.bin,100000000,80000000` sets `memDumpBase` to 0
and `memDumpLength` to `-2^31`. And the argument made of 256 letters `a`
followed by `,0`, which has one comma, does not make `main` return 1: the
terminator of the file name is stored past the end of `memDumpFilename`. -/
theorem memory_dump_option_overflow :
    specHexValue "100000000".data = 2 ^ 32 ∧ specHexValue "80000000".data = 2 ^ 31 ∧
    handleOption sampleEnv.LONG_MAX Locals.init ⟨'d', "dump.bin,100000000,80000000"⟩ =
      Step.next { Locals.init with enableMemoryDump := true, memDumpFilename := "dump.bin",
                                   memDumpBase := 0, memDumpLength := -2147483648 } ∧
    commaCount (String.mk (List.replicate 256 'a' ++ [',', '0'])) = 1 ∧
    (main sampleEnv ["simulator", "-d", String.mk (List.replicate 256 'a' ++ [',', '0']),
      "program.hex"]).status = Status.undefined := by
  decide

/-! ## Keyboard queue -/

theorem enqueueKey_keyboard (cfg : Config) (d : Devices) (c : Nat) (hc : c < 2 ^ 32)
    (hd : d.keyboard.length ≤ cfg.capacity) :
    (enqueueKey cfg d c).keyboard =
      (d.keyboard ++ [c]).drop (d.keyboard.length + 1 - cfg.capacity) := by
  unfold enqueueKey
  rw [Nat.mod_eq_of_lt hc]
  split
  · rename_i h
    rw [List.length_append, List.length_singleton] at h
    have : d.keyboard.length + 1 - cfg.capacity = 1 := by omega
    rw [this, List.drop_one]
  · rename_i h
    rw [List.length_append, List.length_singleton] at h
    have : d.keyboard.length + 1 - cfg.capacity = 0 := by omega
    rw [this, List.drop_zero]

theorem foldl_enqueueKey_keyboard (cfg : Config) (codes : List Nat)
    (d : Devices) (hd : d.keyboard.length ≤ cfg.capacity) (hcodes : ∀ c ∈ codes, c < 2 ^ 32) :
    (codes.foldl (enqueueKey cfg) d).keyboard =
      (d.keyboard ++ codes).drop ((d.keyboard ++ codes).length - cfg.capacity) := by
  induction codes generalizing d with
  | nil =>
    simp only [List.foldl_nil, List.append_nil]
    rw [Nat.sub_eq_zero_of_le hd, List.drop_zero]
  | cons c cs ih =>
    have hc := hcodes c (List.mem_cons_self _ _)
    have hk := enqueueKey_keyboard cfg d c hc hd
    have hcs : ∀ x ∈ cs, x < 2 ^ 32 := fun x hx => hcodes x (List.mem_cons_of_mem _ hx)
    have hlen : (enqueueKey cfg d c).keyboard.length ≤ cfg.capacity := by
      rw [hk, List.length_drop, List.length_append, List.length_singleton]
      omega
    rw [List.foldl_cons, ih _ hlen hcs, hk]
    have hle : d.keyboard.length + 1 - cfg.capacity ≤ (d.keyboard ++ [c]).length := by
      rw [List.length_append, List.length_singleton]
      omega
    rw [← List.drop_append_of_le_length hle, List.drop_drop, List.append_assoc,
      List.singleton_append]
    congr 1
    simp only [List.length_append, List.length_drop, List.length_cons, List.length_nil]
    omega

theorem readWords_keyboard (cfg : Config) (aKeyData : Nat)
    (hmap : decode cfg aKeyData = some Register.KEY_DATA) (ks : List Nat) (d : Devices)
    (hd : d.keyboard = ks) :
    (readWords cfg aKeyData ks.length d).1 = ks ∧
      (readWords cfg aKeyData ks.length d).2.keyboard = [] := by
  induction ks generalizing d with
  | nil => exact ⟨rfl, hd⟩
  | cons k ks ih =>
    have hr : readDeviceRegister cfg d aKeyData = (k, { d with keyboard := ks }) := by
      unfold readDeviceRegister
      rw [hmap]
      simp only [hd]
    have ih2 := ih { d with keyboard := ks } rfl
    simp only [List.length_cons, readWords, hr]
    exact ⟨by rw [ih2.1], ih2.2⟩

/-- C7: keyboard queue overflow drops the oldest entry. From an empty queue of
capacity `N`, after `enqueueKey` of the `N + 1` codes `c1 .. c(N+1)`, the
next `N` reads of KEY_DATA through `readDeviceRegister` return `c2 .. c(N+1)`
in order, and the read after them returns the sentinel `0xFFFFFFFF` and leaves
the queue empty. -/
theorem keyboard_overflow_drops_oldest (cfg : Config) (d : Devices) (codes : List Nat)
    (aKeyData : Nat) (hmap : decode cfg aKeyData = some Register.KEY_DATA)
    (hempty : d.keyboard = [])
    (hlen : codes.length = cfg.capacity + 1) (hcodes : ∀ c ∈ codes, c < 2 ^ 32) :
    (readWords cfg aKeyData cfg.capacity (codes.foldl (enqueueKey cfg) d)).1 = codes.tail ∧
    (readDeviceRegister cfg
      (readWords cfg aKeyData cfg.capacity (codes.foldl (enqueueKey cfg) d)).2 aKeyData).1 =
        0xFFFFFFFF ∧
    (readDeviceRegister cfg
      (readWords cfg aKeyData cfg.capacity (codes.foldl (enqueueKey cfg) d)).2
        aKeyData).2.keyboard = [] := by
  have hq : (codes.foldl (enqueueKey cfg) d).keyboard = codes.tail := by
    rw [foldl_enqueueKey_keyboard cfg codes d (by rw [hempty]; simp) hcodes, hempty]
    simp only [List.nil_append, hlen, Nat.add_sub_cancel_left, List.drop_one]
  have htl : codes.tail.length = cfg.capacity := by
    rw [List.length_tail, hlen]
    rfl
  have hr := readWords_keyboard cfg aKeyData hmap codes.tail _ hq
  rw [htl] at hr
  refine ⟨hr.1, ?_, ?_⟩
  · unfold readDeviceRegister
    rw [hmap]
    simp only [hr.2]
  · unfold readDeviceRegister
    rw [hmap]
    simp only [hr.2]

/-- C7 on a queue of 16 entries: after 17 keys, 16 reads return keys 2 to 17
and the 17th read returns the sentinel. -/
theorem keyboard_overflow_drops_oldest_witness :
    (readWords sampleConfig 0xFFFF0020 sampleConfig.capacity
      ((List.range' 1 17).foldl (enqueueKey sampleConfig) sampleDevices)).1 =
        (List.range' 1 17).tail ∧
    (readDeviceRegister sampleConfig
      (readWords sampleConfig 0xFFFF0020 sampleConfig.capacity
        ((List.range' 1 17).foldl (enqueueKey sampleConfig) sampleDevices)).2 0xFFFF0020).1 =
        0xFFFFFFFF ∧
    (readDeviceRegister sampleConfig
      (readWords sampleConfig 0xFFFF0020 sampleConfig.capacity
        ((List.range' 1 17).foldl (enqueueKey sampleConfig) sampleDevices)).2
        0xFFFF0020).2.keyboard = [] :=
  keyboard_overflow_drops_oldest sampleConfig sampleDevices (List.range' 1 17) 0xFFFF0020
    (by decide) rfl (by decide) (by decide)

/-! ## Block device: words, bytes and sectors -/

theorem bytesWord_wordBytes (w : Nat) (h : w < 2 ^ 32) : bytesWord (wordBytes w) = w := by
  simp only [wordBytes, bytesWord]
  omega

theorem wordBytes_bytesWord (b0 b1 b2 b3 : Nat) (h0 : b0 < 256) (h1 : b1 < 256)
    (h2 : b2 < 256) (h3 : b3 < 256) :
    wordBytes (bytesWord [b0, b1, b2, b3]) = [b0, b1, b2, b3] := by
  simp only [wordBytes, bytesWord, List.cons.injEq, and_true]
  refine ⟨?_, ?_, ?_, ?_⟩ <;> omega

theorem bytesWord_lt (b0 b1 b2 b3 : Nat) (h0 : b0 < 256) (h1 : b1 < 256)
    (h2 : b2 < 256) (h3 : b3 < 256) : bytesWord [b0, b1, b2, b3] < 2 ^ 32 := by
  simp only [bytesWord]
  omega

theorem wordBytes_length (w : Nat) : (wordBytes w).length = 4 := rfl

theorem unpackWords_length (ws : List Nat) : (unpackWords ws).length = 4 * ws.length := by
  induction ws with
  | nil => rfl
  | cons w ws ih =>
    simp only [unpackWords, List.length_append, wordBytes_length, ih, List.length_cons]
    omega

theorem packWords_spec (n : Nat) (block : List Nat) (hlen : block.length = 4 * n)
    (hbytes : ∀ b ∈ block, b < 256) :
    unpackWords (packWords block) = block ∧ (packWords block).length = n ∧
      ∀ w ∈ packWords block, w < 2 ^ 32 := by
  induction n generalizing block with
  | zero =>
    have : block = [] := List.eq_nil_of_length_eq_zero (by omega)
    subst this
    simp [packWords, unpackWords]
  | succ n ih =>
    match block, hlen, hbytes with
    | b0 :: b1 :: b2 :: b3 :: rest, hlen, hbytes =>
      have h0 := hbytes b0 (by simp)
      have h1 := hbytes b1 (by simp)
      have h2 := hbytes b2 (by simp)
      have h3 := hbytes b3 (by simp)
      have hrest := ih rest (by simp at hlen; omega) (fun b hb => hbytes b (by simp [hb]))
      refine ⟨?_, ?_, ?_⟩
      · simp only [packWords, unpackWords, wordBytes_bytesWord b0 b1 b2 b3 h0 h1 h2 h3, hrest.1]
        rfl
      · simp only [packWords, List.length_cons, hrest.2.1]
      · intro w hw
        simp only [packWords, List.mem_cons] at hw
        rcases hw with rfl | hw
        · exact bytesWord_lt b0 b1 b2 b3 h0 h1 h2 h3
        · exact hrest.2.2 w hw
    | [], hlen, _ => simp at hlen
    | [_], hlen, _ =>
      simp at hlen
      omega
    | [_, _], hlen, _ =>
      simp at hlen
      omega
    | [_, _, _], hlen, _ =>
      simp at hlen
      omega

theorem writeAt_prefix_length (content : List Nat) (offset : Nat) :
    ((content ++ List.replicate (offset - content.length) 0).take offset).length = offset := by
  simp only [List.length_take, List.length_append, List.length_replicate]
  omega

theorem writeAt_length (content : List Nat) (offset : Nat) (bytes : List Nat) :
    (writeAt content offset bytes).length =
      offset + bytes.length + (content.length - (offset + bytes.length)) := by
  unfold writeAt
  rw [List.length_append, List.length_append, writeAt_prefix_length, List.length_drop]

/-- The bytes written by `writeAt` are read back at the same offset. -/
theorem writeAt_read_same (content : List Nat) (offset : Nat) (bytes : List Nat) :
    ((writeAt content offset bytes).drop offset).take bytes.length = bytes := by
  unfold writeAt
  rw [List.append_assoc, List.drop_left' (writeAt_prefix_length content offset),
    List.take_left' rfl]

theorem writeAt_getElem?_before (content : List Nat) (offset : Nat) (bytes : List Nat) (m : Nat)
    (hm : m < offset) (hc : m < content.length) :
    (writeAt content offset bytes)[m]? = content[m]? := by
  unfold writeAt
  rw [List.append_assoc, List.getElem?_append_left (by rw [writeAt_prefix_length]; exact hm),
    List.getElem?_take_of_lt hm, List.getElem?_append_left hc]

theorem writeAt_getElem?_after (content : List Nat) (offset : Nat) (bytes : List Nat) (m : Nat)
    (hm : offset + bytes.length ≤ m) :
    (writeAt content offset bytes)[m]? = content[m]? := by
  unfold writeAt
  have h1 : ((content ++ List.replicate (offset - content.length) 0).take offset ++
      bytes).length = offset + bytes.length := by
    rw [List.length_append, writeAt_prefix_length]
  rw [List.getElem?_append_right (by rw [h1]; exact hm), h1, List.getElem?_drop]
  congr 1
  omega

/-- Writing one sector leaves every other complete sector of the file as it
was. -/
theorem writeAt_read_other (content : List Nat) (i j : Nat) (bytes : List Nat)
    (hij : i ≠ j) (hbytes : bytes.length = sectorSize)
    (hc : i * sectorSize + sectorSize ≤ content.length) :
    ((writeAt content (j * sectorSize) bytes).drop (i * sectorSize)).take sectorSize =
      (content.drop (i * sectorSize)).take sectorSize := by
  apply List.ext_getElem?
  intro k
  by_cases hk : k < sectorSize
  · rw [List.getElem?_take_of_lt hk, List.getElem?_take_of_lt hk, List.getElem?_drop,
      List.getElem?_drop]
    unfold sectorSize at *
    rcases Nat.lt_or_gt_of_ne hij with h | h
    · exact writeAt_getElem?_before content _ bytes _ (by omega) (by omega)
    · exact writeAt_getElem?_after content _ bytes _ (by omega)
  · rw [List.getElem?_take_eq_none (by omega), List.getElem?_take_eq_none (by omega)]

/-! ## Block device: the round trip -/

theorem Holds.frame {path : String} {i : Nat} {block : List Nat} {d d1 : Devices}
    (h : Holds path i block d) (hhost : d1.host = d.host) (hstore : d1.store = d.store)
    (hbusy : d1.controller.busy = d.controller.busy)
    (hbuf : d1.controller.sectorBuffer.length = sectorSize) : Holds path i block d1 :=
  ⟨by rw [hstore]; exact h.handle, by rw [hhost]; exact h.allowed, by rw [hbusy]; exact h.idle,
    hbuf, by rw [hhost]; exact h.sector⟩

theorem readSector_length (host : Host) (store : BackingStore) (index : Nat) (bytes : List Nat)
    (h : readSector host store index = Except.ok bytes) : bytes.length = sectorSize := by
  unfold readSector at h
  split at h
  · simp at h
  · split at h
    · simp at h
    · split at h
      · simp at h
      · split at h
        · simp at h
        · simp only [Except.ok.injEq] at h
          subst h
          rw [List.length_take, List.length_drop]
          omega

theorem writeData_length (buf : List Nat) (p v : Nat) (hbuf : buf.length = sectorSize)
    (hp : p + 4 ≤ sectorSize) :
    (buf.take p ++ wordBytes v ++ buf.drop (p + 4)).length = sectorSize := by
  simp only [List.length_append, List.length_take, List.length_drop, wordBytes_length]
  omega

theorem Holds.afterCommand {cfg : Config} {path : String} {i : Nat} {block : List Nat}
    {d : Devices} (h : Holds path i block d) (v : Nat)
    (hnw : ¬ (cfg.command v = some Command.WRITE_SECTOR ∧ d.controller.sectorRegister = i)) :
    Holds path i block (writeCommand cfg d v) := by
  unfold writeCommand
  split
  · exact h
  · exact h.frame rfl rfl rfl h.buffer
  · split
    · exact h.frame rfl rfl rfl h.buffer
    · split
      · rename_i bytes hr
        exact h.frame rfl rfl rfl (readSector_length _ _ _ _ hr)
      · exact h.frame rfl rfl rfl h.buffer
  · rename_i hcmd
    have hne : d.controller.sectorRegister ≠ i := fun e => hnw ⟨hcmd, e⟩
    rw [if_neg (by rw [h.idle]; simp)]
    obtain ⟨content, hfile, hlen, hsec⟩ := h.sector
    simp only [writeSector, h.handle, hfile]
    refine ⟨h.handle, h.allowed, h.idle, h.buffer, ?_⟩
    refine ⟨writeAt content (d.controller.sectorRegister * sectorSize)
      d.controller.sectorBuffer, by simp [Host.setFile], ?_, ?_⟩
    · rw [writeAt_length]
      omega
    · rw [writeAt_read_other content i _ _ (Ne.symm hne) h.buffer hlen]
      exact hsec

theorem Holds.afterWrite {cfg : Config} {path : String} {i : Nat} {block : List Nat}
    {d : Devices} (h : Holds path i block d) (address value : Nat)
    (hnw : (Access.write address value).writesSector cfg d i = false) :
    Holds path i block (writeDeviceRegister cfg d address value) := by
  unfold writeDeviceRegister
  split
  · rename_i hdec
    apply h.afterCommand
    rintro ⟨hc, hs⟩
    simp only [Access.writesSector, hdec, hc, hs] at hnw
    simp at hnw
  · exact h.frame rfl rfl rfl h.buffer
  · split
    · rename_i hp
      exact h.frame rfl rfl rfl (writeData_length _ _ _ h.buffer hp)
    · exact h
  · exact h.frame rfl rfl rfl h.buffer
  · exact h

theorem Holds.afterRead {cfg : Config} {path : String} {i : Nat} {block : List Nat}
    {d : Devices} (h : Holds path i block d) (address : Nat) :
    Holds path i block (readDeviceRegister cfg d address).2 := by
  unfold readDeviceRegister
  split
  · exact h
  · exact h
  · split
    · exact h.frame rfl rfl rfl h.buffer
    · exact h
  · split
    · exact h
    · exact h.frame rfl rfl rfl h.buffer
  · exact h
  · exact h

theorem Holds.afterKey {cfg : Config} {path : String} {i : Nat} {block : List Nat}
    {d : Devices} (h : Holds path i block d) (scanCode : Nat) :
    Holds path i block (enqueueKey cfg d scanCode) := by
  unfold enqueueKey
  split
  · exact h.frame rfl rfl rfl h.buffer
  · exact h.frame rfl rfl rfl h.buffer

theorem Holds.afterAccesses {cfg : Config} {path : String} {i : Nat} {block : List Nat}
    (as : List Access) {d : Devices} (h : Holds path i block d)
    (hnw : noWriteTo cfg i d as = true) : Holds path i block (runAccesses cfg d as) := by
  induction as generalizing d with
  | nil => exact h
  | cons a as ih =>
    simp only [noWriteTo, Bool.and_eq_true, Bool.not_eq_true'] at hnw
    unfold runAccesses
    rw [List.foldl_cons]
    apply ih _ hnw.2
    cases a with
    | write address value => exact h.afterWrite address value hnw.1
    | read address => exact h.afterRead address
    | key scanCode => exact h.afterKey scanCode

theorem Holds.afterReopen {path : String} {i : Nat} {block : List Nat} {d : Devices}
    (h : Holds path i block d) :
    (openBlockDevice (closeBlockDevice d) path).2 = 0 ∧
      Holds path i block (openBlockDevice (closeBlockDevice d) path).1 := by
  obtain ⟨content, hfile, hlen, hsec⟩ := h.sector
  have hden : (closeBlockDevice d).host.denied path = false := h.allowed
  unfold openBlockDevice
  rw [hden]
  refine ⟨rfl, rfl, h.allowed, rfl, ?_, ?_⟩
  · simp [BlockDeviceController.fresh]
  · refine ⟨content, ?_, hlen, hsec⟩
    simp [closeBlockDevice, Host.setFile, hfile]

theorem writeDeviceRegister_data (cfg : Config) (aData : Nat)
    (hD : decode cfg aData = some Register.DATA) (d : Devices) (w : Nat) (hw : w < 2 ^ 32)
    (hp : d.controller.dataPointer + 4 ≤ sectorSize) :
    writeDeviceRegister cfg d aData w =
      { d with controller :=
          { d.controller with
              sectorBuffer := d.controller.sectorBuffer.take d.controller.dataPointer ++
                wordBytes w ++ d.controller.sectorBuffer.drop (d.controller.dataPointer + 4),
              dataPointer := d.controller.dataPointer + 4 } } := by
  unfold writeDeviceRegister
  simp only [hD, Nat.mod_eq_of_lt hw, if_pos hp]

theorem writeWords_data (cfg : Config) (aData : Nat)
    (hD : decode cfg aData = some Register.DATA) (ws : List Nat) (d : Devices)
    (hws : ∀ w ∈ ws, w < 2 ^ 32) (hbuf : d.controller.sectorBuffer.length = sectorSize)
    (hp : d.controller.dataPointer + 4 * ws.length ≤ sectorSize) :
    (writeWords cfg aData d ws).host = d.host ∧
    (writeWords cfg aData d ws).store = d.store ∧
    (writeWords cfg aData d ws).controller.busy = d.controller.busy ∧
    (writeWords cfg aData d ws).controller.sectorRegister = d.controller.sectorRegister ∧
    (writeWords cfg aData d ws).controller.sectorBuffer =
      d.controller.sectorBuffer.take d.controller.dataPointer ++ unpackWords ws ++
        d.controller.sectorBuffer.drop (d.controller.dataPointer + 4 * ws.length) := by
  induction ws generalizing d with
  | nil =>
    refine ⟨rfl, rfl, rfl, rfl, ?_⟩
    simp [writeWords, unpackWords]
  | cons w ws ih =>
    have hw := hws w (List.mem_cons_self _ _)
    have hlen : (w :: ws).length = ws.length + 1 := rfl
    rw [hlen] at hp ⊢
    have hstep := writeDeviceRegister_data cfg aData hD d w hw (by omega)
    have htake : (d.controller.sectorBuffer.take d.controller.dataPointer ++ wordBytes w).length
        = d.controller.dataPointer + 4 := by
      rw [List.length_append, List.length_take, wordBytes_length, hbuf]
      omega
    have hdrop : (d.controller.sectorBuffer.take d.controller.dataPointer ++ wordBytes w ++
        d.controller.sectorBuffer.drop (d.controller.dataPointer + 4)).drop
          (d.controller.dataPointer + 4 + 4 * ws.length) =
        d.controller.sectorBuffer.drop (d.controller.dataPointer + 4 * (ws.length + 1)) := by
      rw [← htake, List.drop_append, List.drop_drop]
      congr 1
      omega
    have ih2 := ih (writeDeviceRegister cfg d aData w)
      (fun x hx => hws x (List.mem_cons_of_mem _ hx))
      (by rw [hstep]; exact writeData_length _ _ _ hbuf (by omega))
      (by rw [hstep]; show d.controller.dataPointer + 4 + 4 * ws.length ≤ sectorSize; omega)
    have hfold : writeWords cfg aData d (w :: ws) =
        writeWords cfg aData (writeDeviceRegister cfg d aData w) ws := rfl
    rw [hfold]
    refine ⟨?_, ?_, ?_, ?_, ?_⟩
    · rw [ih2.1, hstep]
    · rw [ih2.2.1, hstep]
    · rw [ih2.2.2.1, hstep]
    · rw [ih2.2.2.2.1, hstep]
    · rw [ih2.2.2.2.2, hstep]
      show (d.controller.sectorBuffer.take d.controller.dataPointer ++ wordBytes w ++
        d.controller.sectorBuffer.drop (d.controller.dataPointer + 4)).take
          (d.controller.dataPointer + 4) ++ unpackWords ws ++
        (d.controller.sectorBuffer.take d.controller.dataPointer ++ wordBytes w ++
          d.controller.sectorBuffer.drop (d.controller.dataPointer + 4)).drop
            (d.controller.dataPointer + 4 + 4 * ws.length) = _
      rw [List.take_left' htake, hdrop, unpackWords]
      simp only [List.append_assoc]

/-- A WRITE_SECTOR command on an attached, idle controller stores the sector
buffer in the selected sector. -/
theorem writeCommand_write_holds (cfg : Config) (d : Devices) (path : String)
    (aCommand cWrite : Nat) (hC : decode cfg aCommand = some Register.COMMAND)
    (hW : cfg.command (cWrite % 2 ^ 32) = some Command.WRITE_SECTOR)
    (hopen : d.store.fileHandle = some path) (hfile : (d.host.files path).isSome = true)
    (hden : d.host.denied path = false) (hbusy : d.controller.busy = false)
    (hbuf : d.controller.sectorBuffer.length = sectorSize) :
    Holds path d.controller.sectorRegister d.controller.sectorBuffer
      (writeDeviceRegister cfg d aCommand cWrite) := by
  obtain ⟨content, hcontent⟩ := Option.isSome_iff_exists.1 hfile
  unfold writeDeviceRegister
  simp only [hC]
  unfold writeCommand
  simp only [hW, hbusy, Bool.false_eq_true, if_false, writeSector, hopen, hcontent]
  refine ⟨hopen, hden, rfl, hbuf, ?_⟩
  refine ⟨writeAt content (d.controller.sectorRegister * sectorSize) d.controller.sectorBuffer,
    by simp [Host.setFile], ?_, ?_⟩
  · rw [writeAt_length, hbuf]
    omega
  · have := writeAt_read_same content (d.controller.sectorRegister * sectorSize)
      d.controller.sectorBuffer
    rw [hbuf] at this
    exact this

/-- After the write protocol from an attached, idle controller whose data
pointer is 0, sector `i` of the backing file holds the block. -/
theorem writeSectorProtocol_holds (cfg : Config) (d : Devices) (path : String) (i : Nat)
    (block : List Nat) (aSector aData aCommand cWrite : Nat)
    (hS : decode cfg aSector = some Register.SECTOR)
    (hD : decode cfg aData = some Register.DATA)
    (hC : decode cfg aCommand = some Register.COMMAND)
    (hW : cfg.command (cWrite % 2 ^ 32) = some Command.WRITE_SECTOR)
    (hopen : d.store.fileHandle = some path) (hfile : (d.host.files path).isSome = true)
    (hden : d.host.denied path = false) (hbusy : d.controller.busy = false)
    (hdp : d.controller.dataPointer = 0)
    (hbuf : d.controller.sectorBuffer.length = sectorSize)
    (hi : i < 2 ^ 32) (hlen : block.length = sectorSize) (hbytes : ∀ b ∈ block, b < 256) :
    Holds path i block
      (writeSectorProtocol cfg aSector aData aCommand cWrite d i (packWords block)) := by
  obtain ⟨hunpack, hwords, hlt⟩ := packWords_spec 128 block hlen hbytes
  have hstepS : writeDeviceRegister cfg d aSector i =
      { d with controller := { d.controller with sectorRegister := i } } := by
    unfold writeDeviceRegister
    simp only [hS, Nat.mod_eq_of_lt hi]
  have hw := writeWords_data cfg aData hD (packWords block)
    (writeDeviceRegister cfg d aSector i) hlt (by rw [hstepS]; exact hbuf)
    (by rw [hstepS, hwords]; show d.controller.dataPointer + 4 * 128 ≤ sectorSize
        rw [hdp]; decide)
  unfold writeSectorProtocol
  generalize writeWords cfg aData (writeDeviceRegister cfg d aSector i) (packWords block) = dW
    at hw ⊢
  rw [hstepS] at hw
  have hdrop : List.drop (0 + 4 * 128) d.controller.sectorBuffer = [] :=
    List.drop_eq_nil_of_le (by rw [hbuf]; decide)
  simp only [hdp, hwords, hunpack, List.take_zero, List.nil_append, hdrop,
    List.append_nil] at hw
  obtain ⟨hw1, hw2, hw3, hw4, hw5⟩ := hw
  have key := writeCommand_write_holds cfg dW path aCommand cWrite hC hW
    (by rw [hw2]; exact hopen) (by rw [hw1]; exact hfile) (by rw [hw1]; exact hden)
    (by rw [hw3]; exact hbusy) (by rw [hw5]; exact hlen)
  rw [hw4, hw5] at key
  exact key

theorem readWords_data (cfg : Config) (aData : Nat)
    (hD : decode cfg aData = some Register.DATA) (ws : List Nat) (d : Devices)
    (hws : ∀ w ∈ ws, w < 2 ^ 32) (hbuf : d.controller.sectorBuffer.length = sectorSize)
    (hrest : d.controller.sectorBuffer.drop d.controller.dataPointer = unpackWords ws) :
    (readWords cfg aData ws.length d).1 = ws := by
  induction ws generalizing d with
  | nil => rfl
  | cons w ws ih =>
    have hw := hws w (List.mem_cons_self _ _)
    have hl := congrArg List.length hrest
    rw [List.length_drop, unpackWords_length, hbuf, List.length_cons] at hl
    have hp : d.controller.dataPointer + 4 ≤ sectorSize := by omega
    have hr : readDeviceRegister cfg d aData =
        (w, { d with controller :=
          { d.controller with dataPointer := d.controller.dataPointer + 4 } }) := by
      unfold readDeviceRegister
      simp only [hD, if_pos hp, hrest, unpackWords]
      rw [List.take_left' (wordBytes_length w), bytesWord_wordBytes w hw]
    have ih2 := ih
      { d with controller := { d.controller with dataPointer := d.controller.dataPointer + 4 } }
      (fun x hx => hws x (List.mem_cons_of_mem _ hx)) hbuf
      (by
        show d.controller.sectorBuffer.drop (d.controller.dataPointer + 4) = unpackWords ws
        rw [← List.drop_drop, hrest, unpackWords]
        exact List.drop_left' (wordBytes_length w))
    simp only [List.length_cons, readWords, hr, ih2]

/-- The read protocol returns the words of the block that sector `i` holds. -/
theorem readSectorProtocol_of_holds (cfg : Config) (d : Devices) (path : String) (i : Nat)
    (block : List Nat) (aSector aData aCommand cRead : Nat)
    (hS : decode cfg aSector = some Register.SECTOR)
    (hD : decode cfg aData = some Register.DATA)
    (hC : decode cfg aCommand = some Register.COMMAND)
    (hR : cfg.command (cRead % 2 ^ 32) = some Command.READ_SECTOR)
    (h : Holds path i block d)
    (hi : i < 2 ^ 32) (hlen : block.length = sectorSize) (hbytes : ∀ b ∈ block, b < 256) :
    (readSectorProtocol cfg aSector aData aCommand cRead d i).1 = packWords block := by
  obtain ⟨hunpack, hwords, hlt⟩ := packWords_spec 128 block hlen hbytes
  obtain ⟨content, hfile, hclen, hsec⟩ := h.sector
  have hstepS : writeDeviceRegister cfg d aSector i =
      { d with controller := { d.controller with sectorRegister := i } } := by
    unfold writeDeviceRegister
    simp only [hS, Nat.mod_eq_of_lt hi]
  have hread : readSector d.host d.store i = Except.ok block := by
    unfold readSector
    simp only [h.handle, hfile]
    rw [if_neg (by omega), if_neg (by omega), hsec]
  have hstepR : writeDeviceRegister cfg
      { d with controller := { d.controller with sectorRegister := i } } aCommand cRead =
      { d with controller :=
          { d.controller with sectorRegister := i, dataPointer := 0, sectorBuffer := block,
                              interruptPending := d.controller.interruptPending + 1 } } := by
    unfold writeDeviceRegister
    simp only [hC]
    unfold writeCommand
    simp only [hR, h.idle, Bool.false_eq_true, if_false, hread]
  unfold readSectorProtocol
  rw [hstepS, hstepR]
  have h128 : sectorSize / 4 = (packWords block).length := by
    rw [hwords]
    rfl
  rw [h128]
  exact readWords_data cfg aData hD (packWords block) _ hlt hlen (by simpa using hunpack.symm)

/-- C6: block device round trip through the entry points of `device.h`. Start
from a state in which the block device is attached to `path` (which exists and
can be reopened) and the controller is idle with its data pointer at 0, as
after `openBlockDevice` or after any sector command. Write the 512 byte block
to sector `i` with the register protocol (SECTOR, the 128 words to DATA,
COMMAND = WRITE_SECTOR), make any accesses that do not write sector `i`, call
`closeBlockDevice` and `openBlockDevice` on the same file (which succeeds),
again make any accesses that do not write sector `i`, and read sector `i` with
the register protocol (SECTOR, COMMAND = READ_SECTOR, 128 reads of DATA): the
words read are those of the block, so the bytes read are exactly the bytes
written. -/
theorem block_device_round_trip (cfg : Config) (d : Devices) (path : String) (i : Nat)
    (block : List Nat) (ops1 ops2 : List Access)
    (aSector aData aCommand cRead cWrite : Nat)
    (hS : decode cfg aSector = some Register.SECTOR)
    (hD : decode cfg aData = some Register.DATA)
    (hC : decode cfg aCommand = some Register.COMMAND)
    (hR : cfg.command (cRead % 2 ^ 32) = some Command.READ_SECTOR)
    (hW : cfg.command (cWrite % 2 ^ 32) = some Command.WRITE_SECTOR)
    (hopen : d.store.fileHandle = some path) (hfile : (d.host.files path).isSome = true)
    (hden : d.host.denied path = false) (hbusy : d.controller.busy = false)
    (hdp : d.controller.dataPointer = 0)
    (hbuf : d.controller.sectorBuffer.length = sectorSize)
    (hi : i < 2 ^ 32) (hlen : block.length = sectorSize) (hbytes : ∀ b ∈ block, b < 256)
    (h1 : noWriteTo cfg i
      (writeSectorProtocol cfg aSector aData aCommand cWrite d i (packWords block)) ops1 = true)
    (h2 : noWriteTo cfg i
      (openBlockDevice (closeBlockDevice (runAccesses cfg
        (writeSectorProtocol cfg aSector aData aCommand cWrite d i (packWords block)) ops1))
        path).1 ops2 = true) :
    (openBlockDevice (closeBlockDevice (runAccesses cfg
      (writeSectorProtocol cfg aSector aData aCommand cWrite d i (packWords block)) ops1))
      path).2 = 0 ∧
    (readSectorProtocol cfg aSector aData aCommand cRead
      (runAccesses cfg
        (openBlockDevice (closeBlockDevice (runAccesses cfg
          (writeSectorProtocol cfg aSector aData aCommand cWrite d i (packWords block)) ops1))
          path).1 ops2) i).1 = packWords block ∧
    unpackWords (readSectorProtocol cfg aSector aData aCommand cRead
      (runAccesses cfg
        (openBlockDevice (closeBlockDevice (runAccesses cfg
          (writeSectorProtocol cfg aSector aData aCommand cWrite d i (packWords block)) ops1))
          path).1 ops2) i).1 = block := by
  have hwritten := writeSectorProtocol_holds cfg d path i block aSector aData aCommand cWrite
    hS hD hC hW hopen hfile hden hbusy hdp hbuf hi hlen hbytes
  have hkept := hwritten.afterAccesses ops1 h1
  have hreopen := hkept.afterReopen
  have hkept2 := hreopen.2.afterAccesses ops2 h2
  have hread := readSectorProtocol_of_holds cfg _ path i block aSector aData aCommand cRead
    hS hD hC hR hkept2 hi hlen hbytes
  refine ⟨hreopen.1, hread, ?_⟩
  rw [hread]
  exact (packWords_spec 128 block hlen hbytes).1

/-- C6 on the end-to-end case of the design document: 512 bytes `0xAA` written
to sector 3 of `disk.img`, with a key press and a write of sector 5 before the
detach and a keyboard read and a console write after the reattach. -/
theorem block_device_round_trip_witness :
    (openBlockDevice (closeBlockDevice (runAccesses sampleConfig
      (writeSectorProtocol sampleConfig 0xFFFF0018 0xFFFF001C 0xFFFF0014 2
        (openBlockDevice sampleDevices "disk.img").1 3 (packWords (List.replicate 512 0xAA)))
      [Access.key 30, Access.write 0xFFFF0018 5, Access.write 0xFFFF0014 2]))
      "disk.img").2 = 0 ∧
    (readSectorProtocol sampleConfig 0xFFFF0018 0xFFFF001C 0xFFFF0014 1
      (runAccesses sampleConfig
        (openBlockDevice (closeBlockDevice (runAccesses sampleConfig
          (writeSectorProtocol sampleConfig 0xFFFF0018 0xFFFF001C 0xFFFF0014 2
            (openBlockDevice sampleDevices "disk.img").1 3
            (packWords (List.replicate 512 0xAA)))
          [Access.key 30, Access.write 0xFFFF0018 5, Access.write 0xFFFF0014 2]))
          "disk.img").1
        [Access.read 0xFFFF0020, Access.write 0xFFFF0004 104]) 3).1 =
      packWords (List.replicate 512 0xAA) ∧
    unpackWords (readSectorProtocol sampleConfig 0xFFFF0018 0xFFFF001C 0xFFFF0014 1
      (runAccesses sampleConfig
        (openBlockDevice (closeBlockDevice (runAccesses sampleConfig
          (writeSectorProtocol sampleConfig 0xFFFF0018 0xFFFF001C 0xFFFF0014 2
            (openBlockDevice sampleDevices "disk.img").1 3
            (packWords (List.replicate 512 0xAA)))
          [Access.key 30, Access.write 0xFFFF0018 5, Access.write 0xFFFF0014 2]))
          "disk.img").1
        [Access.read 0xFFFF0020, Access.write 0xFFFF0004 104]) 3).1 =
      List.replicate 512 0xAA :=
  block_device_round_trip sampleConfig (openBlockDevice sampleDevices "disk.img").1 "disk.img"
    3 (List.replicate 512 0xAA)
    [Access.key 30, Access.write 0xFFFF0018 5, Access.write 0xFFFF0014 2]
    [Access.read 0xFFFF0020, Access.write 0xFFFF0004 104]
    0xFFFF0018 0xFFFF001C 0xFFFF0014 1 2
    (by decide) (by decide) (by decide) (by decide) (by decide)
    (by decide) (by decide) (by decide) (by decide) (by decide)
    (by simp [sampleDevices, openBlockDevice, BlockDeviceController.fresh])
    (by decide) (List.length_replicate 512 0xAA)
    (by intro b hb; rw [List.eq_of_mem_replicate hb]; decide)
    (by decide) (by decide)

end Simulator
